import Mathlib

/-!
ESP-AT driver: receive state machine, transaction engine, weather field parser.

Shallow embedding of `src/driver/esp-at/esp_at.c` and `src/app/weather.c`.

* Bytes (`uint8_t`, `char`) are natural numbers; the ASCII codes used by the
  source are `'\n' = 10`, `'\r' = 13`, `'O' = 79`, `'K' = 75`, `'E' = 69`,
  `'R' = 82`, `'"' = 34`, NUL `= 0`.
* The module-level variables `rxdata`, `rxlen`, `rxready`, `rxresult` form the
  record `RxState`, passed explicitly.
* `rxdata` is a map from index to byte; `on_usart_received_checked` is the same
  function with every array access checked against `RX_BUFFER_SIZE`.
-/

namespace EspAt

/-! ## Constants of `esp_at.c` -/

/-- Capacity of the receive buffer: `#define RX_BUFFER_SIZE 4096`. -/
def RX_BUFFER_SIZE : Nat := 4096

/-- Result code `#define RX_RESULT_OK 0`. -/
def RX_RESULT_OK : Nat := 0

/-- Result code `#define RX_RESULT_ERROR 1`. -/
def RX_RESULT_ERROR : Nat := 1

/-- Result code `#define RX_RESULT_FAIL 2`: buffer full; also the value preset when a
transaction is armed. -/
def RX_RESULT_FAIL : Nat := 2

/-- The four static variables of `esp_at.c`. -/
structure RxState where
  rxdata : Nat → Nat
  rxlen : Nat
  rxready : Bool
  rxresult : Nat

/-- The store `rxdata[i] = v`. -/
def bufset (buf : Nat → Nat) (i v : Nat) : Nat → Nat :=
  fun j => if j = i then v else buf j

/-- The callback `on_usart_received(data)`, lines 55-103. The subtractions `rxlen - k` are
each guarded by `rxlen >= k`, so the `uint32_t` arithmetic is exact. -/
def on_usart_received (s : RxState) (data : Nat) : RxState :=
  if !s.rxready then s
  else if s.rxlen < RX_BUFFER_SIZE then
    -- rxdata[rxlen++] = data;
    let s1 : RxState := { s with rxdata := bufset s.rxdata s.rxlen data, rxlen := s.rxlen + 1 }
    if data = 10 then
      if s1.rxlen ≥ 2 ∧ s1.rxdata (s1.rxlen - 2) = 13 then
        if s1.rxlen ≥ 4 ∧ s1.rxdata (s1.rxlen - 4) = 79 ∧ s1.rxdata (s1.rxlen - 3) = 75 then
          { s1 with rxresult := RX_RESULT_OK, rxready := false }
        else if s1.rxlen ≥ 7 ∧ s1.rxdata (s1.rxlen - 5) = 69 ∧ s1.rxdata (s1.rxlen - 4) = 82 ∧
            s1.rxdata (s1.rxlen - 3) = 82 ∧ s1.rxdata (s1.rxlen - 2) = 79 ∧
            s1.rxdata (s1.rxlen - 1) = 82 then
          { s1 with rxresult := RX_RESULT_ERROR, rxready := false }
        else s1
      else s1
    else s1
  else
    { s with rxresult := RX_RESULT_FAIL, rxready := false }

/-- The transport invoking the callback once per received byte, in arrival
order. -/
def feed (s : RxState) (bs : List Nat) : RxState :=
  bs.foldl on_usart_received s

/-- The state set by lines 137-139 of `esp_at_send_command`: `rxlen = 0`,
`rxready = true`, `rxresult = RX_RESULT_FAIL`; the buffer keeps its bytes. -/
def arm (s : RxState) : RxState :=
  { s with rxlen := 0, rxready := true, rxresult := RX_RESULT_FAIL }

/-- A freshly armed machine over a buffer holding `buf`. -/
def fresh (buf : Nat → Nat) : RxState :=
  { rxdata := buf, rxlen := 0, rxready := true, rxresult := RX_RESULT_FAIL }

/-- The line `OK\r\n`. -/
def okLine : List Nat := [79, 75, 13, 10]

/-- The line `ERROR\r\n`. -/
def errorLine : List Nat := [69, 82, 82, 79, 82, 13, 10]

/-- The buffer `buf` after the bytes `l` were stored from index 0 on. -/
def bufOf (buf : Nat → Nat) (l : List Nat) : Nat → Nat :=
  fun i => l.getD i (buf i)

/-- The armed machine after it stored the bytes `l` of this transaction. -/
def acc (buf : Nat → Nat) (l : List Nat) : RxState :=
  { rxdata := bufOf buf l, rxlen := l.length, rxready := true, rxresult := RX_RESULT_FAIL }

/-- The machine after it stored `l` and the last byte completed `OK\r\n`. -/
def done (buf : Nat → Nat) (l : List Nat) : RxState :=
  { rxdata := bufOf buf l, rxlen := l.length, rxready := false, rxresult := RX_RESULT_OK }

/-- The machine after it stored `l` and refused one more byte. -/
def full (buf : Nat → Nat) (l : List Nat) : RxState :=
  { rxdata := bufOf buf l, rxlen := l.length, rxready := false, rxresult := RX_RESULT_FAIL }

/-- The bytes `rxdata[0..rxlen)`. -/
def captured (s : RxState) : List Nat :=
  (List.range s.rxlen).map s.rxdata

/-! ## Array accesses checked against the buffer bounds -/

/-- The `uint32_t` subtraction `a - b`. -/
def usub32 (a b : Nat) : Nat := (a + 2 ^ 32 - b) % 2 ^ 32

/-- The read `rxdata[i]`: `none` when `i` is outside `0 .. RX_BUFFER_SIZE - 1`. -/
def rd (buf : Nat → Nat) (i : Nat) : Option Nat :=
  if i < RX_BUFFER_SIZE then some (buf i) else none

/-- The store `rxdata[i] = v`: `none` when `i` is outside the array. -/
def wr (buf : Nat → Nat) (i v : Nat) : Option (Nat → Nat) :=
  if i < RX_BUFFER_SIZE then some (bufset buf i v) else none

/-- The comparison `rxdata[i] == c`. -/
def eqAt (buf : Nat → Nat) (i c : Nat) : Option Bool :=
  (rd buf i).map (fun v => decide (v = c))

/-- The short-circuit `a && b` over fallible operands: `b` is evaluated only
when `a` is true. -/
def sand (a b : Option Bool) : Option Bool :=
  a.bind (fun x => if x then b else some false)

/-- The callback `on_usart_received` with every access to `rxdata` checked and the index
arithmetic done in `uint32_t`; `none` is an out-of-range access. -/
def on_usart_received_checked (s : RxState) (data : Nat) : Option RxState :=
  if !s.rxready then some s
  else if s.rxlen < RX_BUFFER_SIZE then
    (wr s.rxdata s.rxlen data).bind (fun buf =>
      let n := (s.rxlen + 1) % 2 ^ 32
      let s1 : RxState := { s with rxdata := buf, rxlen := n }
      if data = 10 then
        (sand (some (decide (n ≥ 2))) (eqAt buf (usub32 n 2) 13)).bind (fun crlf =>
          if crlf then
            (sand (some (decide (n ≥ 4)))
              (sand (eqAt buf (usub32 n 4) 79) (eqAt buf (usub32 n 3) 75))).bind (fun ok =>
              if ok then some { s1 with rxresult := RX_RESULT_OK, rxready := false }
              else
                (sand (some (decide (n ≥ 7)))
                  (sand (eqAt buf (usub32 n 5) 69)
                    (sand (eqAt buf (usub32 n 4) 82)
                      (sand (eqAt buf (usub32 n 3) 82)
                        (sand (eqAt buf (usub32 n 2) 79)
                          (eqAt buf (usub32 n 1) 82)))))).bind (fun err =>
                  if err then some { s1 with rxresult := RX_RESULT_ERROR, rxready := false }
                  else some s1))
          else some s1)
      else some s1)
  else
    some { s with rxresult := RX_RESULT_FAIL, rxready := false }

/-! ## The transaction engine -/

/-- What the foreground context does to the outside, in order. -/
inductive Event where
  | write (bytes : List Nat)
  | delay (ms : Nat)
  deriving DecidableEq

/-- The receive state together with the record of writes and delays. -/
structure World where
  rx : RxState
  log : List Event

/-- The bytes the transport delivers during one call of `esp_at_send_command`:
`during_write` while the command is written out, `ticks[k]` during the k-th
`delay_ms(1)` of the polling loop (nothing once the list runs out). -/
structure Schedule where
  during_write : List Nat
  ticks : List (List Nat)

/-- Modelled from the spec: the Line Transport primitive `write_string(text)`
(`esp_usart_write_string`, declared in the absent `esp_usart.h`), recorded as
one write of the bytes of `text`. -/
def esp_usart_write_string (w : World) (str : List Nat) : World :=
  { w with log := w.log ++ [Event.write str] }

/-- The call `delay_ms(ms)` of `src/app/delay.c` seen from the driver: `ms`
milliseconds pass, during which the transport delivers `arriving`. -/
def delay_ms (w : World) (ms : Nat) (arriving : List Nat) : World :=
  { rx := feed w.rx arriving, log := w.log ++ [Event.delay ms] }

/-- The loop `while (rxready && timeout--) delay_ms(1);` of lines 146-149.
Returns the world at loop exit and the final value of the `uint32_t`
variable `timeout` (the post-decrement is evaluated only when `rxready` is
true, and wraps at zero). -/
def wait_loop (w : World) : Nat → List (List Nat) → World × Nat
  | 0, _ => (w, if w.rx.rxready then 2 ^ 32 - 1 else 0)
  | t + 1, ticks =>
    if w.rx.rxready then wait_loop (delay_ms w 1 (ticks.headD [])) t ticks.tail
    else (w, t + 1)

/-- What `esp_at_send_command` hands back: the return value, the pointer
stored in `*rsp` (as the array it points to, indexed from the pointed-to
byte) and the value stored in `*length`, when those pointers are not NULL. -/
structure CmdResult where
  world : World
  ret : Bool
  rsp : Nat → Nat
  length : Nat

/-- The world when the polling loop of `esp_at_send_command` exits
(lines 137-149). The three assignments of lines 137-139 are one step: no byte
arrives between them. -/
def poll_end (w : World) (cmd : List Nat) (timeout : Nat) (sc : Schedule) : World :=
  let w1 : World := { w with rx := arm w.rx }
  let w2 := esp_usart_write_string w1 cmd
  let w3 := esp_usart_write_string w2 [13, 10]
  let w4 : World := { w3 with rx := feed w3.rx sc.during_write }
  (wait_loop w4 timeout sc.ticks).1

/-- The function `esp_at_send_command(cmd, rsp, length, timeout)`, lines 135-163. -/
def esp_at_send_command (w : World) (cmd : List Nat) (timeout : Nat) (sc : Schedule) :
    CmdResult :=
  let w5 := poll_end w cmd timeout sc
  let w6 : World := { w5 with rx := { w5.rx with rxready := false } }
  { world := w6, ret := decide (w6.rx.rxresult = RX_RESULT_OK),
    rsp := w6.rx.rxdata, length := w6.rx.rxlen }

/-- The bytes of an ASCII string literal. -/
def bytes (s : String) : List Nat := s.toList.map Char.toNat

/-- The function `esp_at_reset()`, lines 186-208. Each transaction has its own schedule;
`settle` arrives during the `delay_ms(2000)`. -/
def esp_at_reset (w : World) (sc1 sc2 sc3 : Schedule) (settle : List Nat) : World × Bool :=
  let r1 := esp_at_send_command w (bytes "AT+RESTORE") 1000 sc1
  if !r1.ret then (r1.world, false)
  else
    let w1 := delay_ms r1.world 2000 settle
    let r2 := esp_at_send_command w1 (bytes "ATE0") 1000 sc2
    if !r2.ret then (r2.world, false)
    else
      let r3 := esp_at_send_command r2.world (bytes "AT+SYSSTORE=0") 1000 sc3
      if !r3.ret then (r3.world, false)
      else (r3.world, true)

/-- The bytes written to the transport, in order. -/
def written (log : List Event) : List (List Nat) :=
  log.filterMap (fun e => match e with
    | Event.write b => some b
    | Event.delay _ => none)

/-- All bytes the transport delivers inside the polling window of a call with
budget `timeout`. -/
def window (timeout : Nat) (sc : Schedule) : List Nat :=
  sc.during_write ++ (sc.ticks.take timeout).flatten

/-- Whether a transaction with budget `timeout` succeeds under the schedule
`sc`, run on an empty world with an empty command. -/
def txn_ok (timeout : Nat) (sc : Schedule) : Bool :=
  (esp_at_send_command { rx := fresh (fun _ => 0), log := [] } [] timeout sc).ret

/-- The record of one transaction: the command, the terminator, `n` polling
ticks of one millisecond. -/
def txn_log (cmd : List Nat) (n : Nat) : List Event :=
  [Event.write cmd, Event.write [13, 10]] ++ List.replicate n (Event.delay 1)

/-! ## Pointers into the response and the response post-processors -/

/-- A pointer as the driver forms them: into `rxdata` at an offset, or an
absolute address; NULL is the absolute address 0. -/
inductive Ptr where
  | buf (off : Nat)
  | abs (addr : Nat)
  deriving DecidableEq

/-- Pointer arithmetic `p + n`. -/
def Ptr.add : Ptr → Nat → Ptr
  | Ptr.buf off, n => Ptr.buf (off + n)
  | Ptr.abs a, n => Ptr.abs (a + n)

/-- The test `if (p)`: the pointer is not NULL. -/
def Ptr.nonNull : Ptr → Bool
  | Ptr.buf _ => true
  | Ptr.abs a => decide (a ≠ 0)

/-- The read `*p`: inside `rxdata` the byte stored there, `none` past the end
of the array; at an absolute address whatever memory `lowmem` holds there. -/
def load (mem lowmem : Nat → Nat) : Ptr → Option Nat
  | Ptr.buf off => rd mem off
  | Ptr.abs a => some (lowmem a)

/-- Whether the bytes of `needle` stand in `rxdata` from offset `k` on; the
comparison stops at the first difference, `none` when it runs past the end of
the array. -/
def matchAt (mem : Nat → Nat) : Nat → List Nat → Option Bool
  | _, [] => some true
  | k, c :: cs =>
    if k < RX_BUFFER_SIZE then
      if mem k = c then matchAt mem (k + 1) cs else some false
    else none

/-- The call `strstr((const char *)rxdata, needle)` as a scan from offset `k`
with `fuel` bytes of the array left: the first offset where `needle` stands,
NULL when a NUL byte is met first, `none` when the scan leaves the array
(no NUL in it). -/
def strstr_buf (mem : Nat → Nat) (needle : List Nat) : Nat → Nat → Option Ptr
  | 0, _ => none
  | fuel + 1, k =>
    match matchAt mem k needle with
    | none => none
    | some true => some (Ptr.buf k)
    | some false =>
      if mem k = 0 then some (Ptr.abs 0) else strstr_buf mem needle fuel (k + 1)

/-- The loop of `esp_at_wifi_get_ip`, lines 339-347, from index `i` with
`fuel = 16 - i` iterations left; `src i` is the read `pip[i]`. -/
def copy_ip (src : Nat → Option Nat) : Nat → Nat → List Nat → Option (List Nat)
  | 0, _, ip => some ip
  | fuel + 1, i, ip =>
    (src i).bind (fun c =>
      if c = 13 then some (ip.set i 0)
      else copy_ip src fuel (i + 1) (ip.set i c))

/-- The function `esp_at_wifi_get_ip(ip)`, lines 325-352; `ip` is the caller's
array. Returns the world, the result and the array left behind; `none` is a
read outside `rxdata`. -/
def esp_at_wifi_get_ip (w : World) (sc : Schedule) (ip : List Nat) (lowmem : Nat → Nat) :
    Option (World × Bool × List Nat) :=
  let r := esp_at_send_command w (bytes "AT+CIPSTA?") 1000 sc
  if !r.ret then some (r.world, false, ip)
  else
    (strstr_buf r.rsp (bytes "+CIPSTA:ip:") RX_BUFFER_SIZE 0).bind (fun found =>
      let pip := found.add (bytes "+CIPSTA:ip:").length
      if pip.nonNull then
        (copy_ip (fun i => load r.rsp lowmem (pip.add i)) 16 0 ip).map
          (fun ip2 => (r.world, true, ip2))
      else some (r.world, true, ip))

/-- The call `strncpy(dest, src, n)` reading the source through `src`, from
index `i` with `n` bytes still to write: bytes are copied up to and including
the first NUL, the rest of the `n` bytes are NUL. -/
def strncpy_load (src : Nat → Option Nat) : Nat → Nat → List Nat → Option (List Nat)
  | 0, _, dest => some dest
  | n + 1, i, dest =>
    (src i).bind (fun c =>
      if c = 0 then
        some (dest.take i ++ List.replicate (n + 1) 0 ++ dest.drop (i + n + 1))
      else strncpy_load src n (i + 1) (dest.set i c))

/-- The function `esp_at_wifi_get_mac(mac)`, lines 361-379. -/
def esp_at_wifi_get_mac (w : World) (sc : Schedule) (mac : List Nat) (lowmem : Nat → Nat) :
    Option (World × Bool × List Nat) :=
  let r := esp_at_send_command w (bytes "AT+CIPSTAMAC?") 1000 sc
  if !r.ret then some (r.world, false, mac)
  else
    (strstr_buf r.rsp (bytes "+CIPSTAMAC:mac:") RX_BUFFER_SIZE 0).bind (fun found =>
      let pmac := found.add (bytes "+CIPSTAMAC:mac:").length
      if pmac.nonNull then
        (strncpy_load (fun i => load r.rsp lowmem (pmac.add i)) 18 0 mac).map
          (fun mac2 => (r.world, true, mac2))
      else some (r.world, true, mac))

/-- The C `isspace`. -/
def is_space (c : Nat) : Bool := decide (c = 32 ∨ (9 ≤ c ∧ c ≤ 13))

/-- The index of the first byte from `i` on that is not white space. -/
def skip_space (src : Nat → Option Nat) : Nat → Nat → Option Nat
  | 0, _ => none
  | fuel + 1, i =>
    (src i).bind (fun c => if is_space c then skip_space src fuel (i + 1) else some i)

/-- The value of the run of decimal digits from `i` on, continuing `acc`. -/
def read_digits (src : Nat → Option Nat) : Nat → Nat → Nat → Option Nat
  | 0, _, _ => none
  | fuel + 1, i, acc =>
    (src i).bind (fun c =>
      if 48 ≤ c ∧ c ≤ 57 then read_digits src fuel (i + 1) (acc * 10 + (c - 48))
      else some acc)

/-- The conversion of a value to the 32-bit `int`: its low 32 bits in two's
complement. -/
def to_int32 (r : Int) : Int := (r + 2147483648) % 4294967296 - 2147483648

/-- The C `atoi`: white space, an optional sign, decimal digits, the value
returned as an `int`; `none` when a read fails. -/
def atoi (src : Nat → Option Nat) : Option Int :=
  (skip_space src (RX_BUFFER_SIZE + 1) 0).bind (fun i =>
    (src i).bind (fun c =>
      let neg := decide (c = 45)
      let j := if c = 45 ∨ c = 43 then i + 1 else i
      (read_digits src (RX_BUFFER_SIZE + 1) j 0).map (fun (v : Nat) =>
        to_int32 (if neg then -(v : Int) else (v : Int)))))

/-- The decimal digits of `n` as ASCII bytes, most significant first, with at
most `fuel + 1` digits. -/
def decimal_fuel : Nat → Nat → List Nat
  | 0, n => [48 + n % 10]
  | fuel + 1, n =>
    if n < 10 then [48 + n] else decimal_fuel fuel (n / 10) ++ [48 + n % 10]

/-- The decimal digits of `n` as ASCII bytes. -/
def decimal (n : Nat) : List Nat := decimal_fuel n n

/-- The value of a string of ASCII digits read from the left, continuing
`acc`. -/
def digits_value (acc : Nat) (ds : List Nat) : Nat :=
  ds.foldl (fun a d => a * 10 + (d - 48)) acc

/-- The function `esp_at_get_time(timestamp)`, lines 301-316: the `int` from
`atoi` is stored in the `uint32_t` `*timestamp`. -/
def esp_at_get_time (w : World) (sc : Schedule) (timestamp : Nat) (lowmem : Nat → Nat) :
    Option (World × Bool × Nat) :=
  let r := esp_at_send_command w (bytes "AT+SYSTIMESTAMP?") 1000 sc
  if !r.ret then some (r.world, false, timestamp)
  else
    (strstr_buf r.rsp (bytes "+SYSTIMESTAMP:") RX_BUFFER_SIZE 0).bind (fun found =>
      let sts := found.add (bytes "+SYSTIMESTAMP:").length
      (atoi (fun i => load r.rsp lowmem (sts.add i))).map
        (fun v => (r.world, true, (v % (2 : Int) ^ 32).toNat)))

/-- The call `snprintf(cmd, size, ...)`: at most `size - 1` bytes of the
formatted text are kept. -/
def snprintf (size : Nat) (text : List Nat) : List Nat := text.take (size - 1)

/-- The text `AT+CWJAP="<ssid>","<pwd>"`. -/
def cwjap (ssid pwd : List Nat) : List Nat :=
  bytes "AT+CWJAP=\"" ++ ssid ++ bytes "\",\"" ++ pwd ++ bytes "\""

/-- The function `esp_at_wifi_connect(ssid, pwd)`, lines 235-246, with
`char cmd[64]`. -/
def esp_at_wifi_connect (w : World) (ssid pwd : List Nat) (sc : Schedule) : World × Bool :=
  let cmd := snprintf 64 (cwjap ssid pwd)
  let r := esp_at_send_command w cmd 10000 sc
  if !r.ret then (r.world, false) else (r.world, true)

/-- The world when the polling loop of `esp_at_send_command` is entered: armed,
command and terminator written, the bytes that came meanwhile received. -/
def poll_start (w : World) (cmd : List Nat) (sc : Schedule) : World :=
  { rx := feed (arm w.rx) sc.during_write,
    log := w.log ++ [Event.write cmd] ++ [Event.write [13, 10]] }

/-- The number of polling ticks after which the receive machine has disarmed
itself: `some k` for the least `k` such that `rxready` is false after the
bytes of the first `k` ticks, `none` when it never is. -/
def disarm_tick (s : RxState) : List (List Nat) → Option Nat
  | [] => if s.rxready then none else some 0
  | hd :: tl =>
    if s.rxready then (disarm_tick (feed s hd) tl).map (fun k => k + 1) else some 0

/-- The value `min(t, k)` with `k` possibly infinite. -/
def min_ticks (t : Nat) : Option Nat → Nat
  | none => t
  | some k => min t k

/-- The number of `delay_ms(1)` calls recorded in a log. -/
def tick_count (log : List Event) : Nat :=
  log.count (Event.delay 1)

/-- The transport delivering the bytes of `l` one per polling tick. -/
def byte_by_byte (l : List Nat) : Schedule :=
  { during_write := [], ticks := l.map (fun b => [b]) }

/-- A world whose buffer is all zero and whose record is empty. -/
def world0 : World := { rx := { rxdata := fun _ => 0, rxlen := 0, rxready := false, rxresult := 0 }, log := [] }

/-- The result and the caller's output of a post-processor, without the world. -/
def outcome {α : Type} (r : Option (World × Bool × α)) : Option (Bool × α) :=
  r.map (fun x => (x.2.1, x.2.2))

set_option linter.unusedVariables false in
/-- The function `esp_at_get_http(url, rsp, length, timeout)`, lines 258-269,
with `char cmd[128]`; `rsp` and `length` are handed on to
`esp_at_send_command`, which stores through them on every outcome. -/
def esp_at_get_http (w : World) (url : List Nat) (timeout : Nat) (sc : Schedule) : CmdResult :=
  let cmd := snprintf 128 (bytes "AT+HTTPCGET=\"" ++ url ++ bytes "\"")
  let r := esp_at_send_command w cmd 10000 sc
  if !r.ret then { r with ret := false } else { r with ret := true }

/-- Two calls of `esp_at_wifi_get_ip` in a row from the zeroed world, the
transport delivering `earlier` during the first and `current` during the
second; the result is that of the second call. -/
def get_ip_twice (earlier current : List Nat) (ip : List Nat) (lowmem : Nat → Nat) :
    Option (World × Bool × List Nat) :=
  (esp_at_wifi_get_ip world0 (byte_by_byte earlier) ip lowmem).bind
    (fun r => esp_at_wifi_get_ip r.1 (byte_by_byte current) ip lowmem)

/-- A schedule that delivers nothing. -/
def silent (sc : Schedule) : Prop :=
  sc.during_write = [] ∧ ∀ t ∈ sc.ticks, t = []

instance (sc : Schedule) : Decidable (silent sc) := by
  unfold silent; infer_instance

end EspAt

namespace Weather

/-! ## `weather.c` -/

/-- The type `weather_t` (declared in the absent `weather.h`): two `char` arrays, whose
sizes are the lengths of the lists. -/
structure weather_t where
  weather : List Nat
  temperature : List Nat

/-- The call `strstr(hay, needle)` on the bytes of a C string: the offset of the first
occurrence, `none` for NULL. -/
def strstr : List Nat → List Nat → Option Nat
  | [], needle => if needle = [] then some 0 else none
  | h :: t, needle =>
    if needle.isPrefixOf (h :: t) then some 0 else (strstr t needle).map (fun i => i + 1)

/-- The call `strchr(s, c)` for a byte `c` other than NUL: the offset of the first `c`,
`none` for NULL. -/
def strchr : List Nat → Nat → Option Nat
  | [], _ => none
  | h :: t, c => if h = c then some 0 else (strchr t c).map (fun i => i + 1)

/-- The call `strncpy(dest, src, n)` into the array `dest` from the C string whose
bytes are `src`: `n` bytes are written, NULs once `src` is exhausted. -/
def strncpy (dest src : List Nat) (n : Nat) : List Nat :=
  (src.take n ++ List.replicate (n - src.length) 0) ++ dest.drop n

/-- The marker `"text":"`. -/
def textMarker : List Nat := EspAt.bytes "\"text\":\""

/-- The marker `"temperature":"`. -/
def temperatureMarker : List Nat := EspAt.bytes "\"temperature\":\""

/-- The function `weather_parse(data, weather)`, lines 36-87; `data` is the
bytes of the C string before its terminating NUL. Returns the result and the `weather_t` left behind. -/
def weather_parse (data : List Nat) (weather : weather_t) : Bool × weather_t :=
  match strstr data textMarker with
  | none => (false, weather)
  | some i =>
    let p := data.drop (i + textMarker.length)
    match strchr p 34 with
    | none => (false, weather)
    | some q =>
      let len := if q ≥ weather.weather.length then weather.weather.length - 1 else q
      let w1 : weather_t :=
        { weather with weather := (strncpy weather.weather p len).set len 0 }
      match strstr data temperatureMarker with
      | none => (false, w1)
      | some j =>
        let p2 := data.drop (j + temperatureMarker.length)
        match strchr p2 34 with
        | none => (false, w1)
        | some q2 =>
          let len2 :=
            if q2 ≥ w1.temperature.length then w1.temperature.length - 1 else q2
          (true, { w1 with temperature := (strncpy w1.temperature p2 len2).set len2 0 })

/-- The field after `marker` is found: `marker` occurs in `data`, and a double
quote occurs somewhere after the end of its first occurrence. -/
def field_found (data marker : List Nat) : Prop :=
  ∃ pre rest, data = pre ++ marker ++ rest ∧
    (∀ k, k < pre.length → ¬ marker <+: data.drop k) ∧ 34 ∈ rest

/-- The example input of the header comment of `weather.c`. -/
def examplePayload : List Nat := EspAt.bytes
  "+HTTPCGET:261,\x7b\"results\":[\x7b\"location\":\x7b\"id\":\"WTEMH46Z5N09\",\"name\":\"Hefei\",\"country\":\"CN\",\"path\":\"Hefei,Hefei,Anhui,China\",\"timezone\":\"Asia/Shanghai\",\"timezone_offset\":\"+08:00\"\x7d,\"now\":\x7b\"text\":\"Cloudy\",\"code\":\"4\",\"temperature\":\"36\"\x7d,\"last_update\":\"2024-08-26T16:20:13+08:00\"\x7d]\x7d\r\n\r\nOK\r\n"

end Weather

namespace EspAt

/-! ## Feeding bytes -/

theorem feed_nil (s : RxState) : feed s [] = s := rfl

theorem feed_cons (s : RxState) (b : Nat) (bs : List Nat) :
    feed s (b :: bs) = feed (on_usart_received s b) bs := rfl

theorem feed_append (s : RxState) (xs ys : List Nat) :
    feed s (xs ++ ys) = feed (feed s xs) ys := by
  simp [feed, List.foldl_append]

theorem feed_snoc (s : RxState) (xs : List Nat) (b : Nat) :
    feed s (xs ++ [b]) = on_usart_received (feed s xs) b := by
  simp [feed, List.foldl_append]

theorem step_idle (s : RxState) (b : Nat) (h : s.rxready = false) :
    on_usart_received s b = s := by
  simp [on_usart_received, h]

theorem feed_idle (s : RxState) (bs : List Nat) (h : s.rxready = false) :
    feed s bs = s := by
  induction bs with
  | nil => rfl
  | cons b bs ih => rw [feed_cons, step_idle s b h, ih]

/-! ## Suffixes and the bytes before the write position -/

theorem bufOf_nil (buf : Nat → Nat) : bufOf buf [] = buf := by
  funext i; simp [bufOf]

theorem bufOf_lt (buf : Nat → Nat) (l : List Nat) (i : Nat) (h : i < l.length) :
    bufOf buf l i = l.getD i 0 := by
  simp [bufOf, List.getD_eq_getElem?_getD, List.getElem?_eq_getElem h]

theorem bufOf_ge (buf : Nat → Nat) (l : List Nat) (i : Nat) (h : l.length ≤ i) :
    bufOf buf l i = buf i := by
  simp [bufOf, List.getD_eq_getElem?_getD, List.getElem?_eq_none h]

theorem bufset_bufOf (buf : Nat → Nat) (l : List Nat) (b : Nat) :
    bufset (bufOf buf l) l.length b = bufOf buf (l ++ [b]) := by
  funext j
  simp only [bufset, bufOf, List.getD_eq_getElem?_getD]
  by_cases hj : j = l.length
  · subst hj; simp
  · rcases Nat.lt_or_gt_of_ne hj with h | h
    · simp [hj, List.getElem?_append_left h]
    · have h1 : l.length ≤ j := Nat.le_of_lt h
      have h2 : (l ++ [b]).length ≤ j := by simp; omega
      simp [hj, List.getElem?_eq_none h1, List.getElem?_eq_none h2]

theorem snoc4 (l : List Nat) (h : 4 ≤ l.length) :
    ∃ t a b c d, l = t ++ [a, b, c, d] := by
  refine ⟨l.take (l.length - 4), ?_⟩
  have hd : (l.drop (l.length - 4)).length = 4 := by simp; omega
  match hm : l.drop (l.length - 4), hd with
  | [a, b, c, d], _ => exact ⟨a, b, c, d, by rw [← hm, List.take_append_drop]⟩

theorem bufOf_append_right (buf : Nat → Nat) (t r : List Nat) (k : Nat) :
    bufOf buf (t ++ r) (t.length + k) = r.getD k (buf (t.length + k)) := by
  simp [bufOf, List.getD_eq_getElem?_getD, List.getElem?_append_right]

theorem bufOf_last4 (buf : Nat → Nat) (t : List Nat) (a b c d : Nat) :
    bufOf buf (t ++ [a, b, c, d]) ((t ++ [a, b, c, d]).length - 4) = a ∧
    bufOf buf (t ++ [a, b, c, d]) ((t ++ [a, b, c, d]).length - 3) = b ∧
    bufOf buf (t ++ [a, b, c, d]) ((t ++ [a, b, c, d]).length - 2) = c ∧
    bufOf buf (t ++ [a, b, c, d]) ((t ++ [a, b, c, d]).length - 1) = d := by
  have e4 : (t ++ [a, b, c, d]).length - 4 = t.length + 0 := by simp
  have e3 : (t ++ [a, b, c, d]).length - 3 = t.length + 1 := by simp
  have e2 : (t ++ [a, b, c, d]).length - 2 = t.length + 2 := by simp
  have e1 : (t ++ [a, b, c, d]).length - 1 = t.length + 3 := by simp
  rw [e4, e3, e2, e1, bufOf_append_right, bufOf_append_right, bufOf_append_right,
    bufOf_append_right]
  simp

/-- A list ends in `[w, x, y, z]` exactly when the four bytes before the write
position spell them. -/
theorem suffix4_iff (buf : Nat → Nat) (l : List Nat) (w x y z : Nat) :
    [w, x, y, z] <:+ l ↔ 4 ≤ l.length ∧ bufOf buf l (l.length - 4) = w ∧
      bufOf buf l (l.length - 3) = x ∧ bufOf buf l (l.length - 2) = y ∧
      bufOf buf l (l.length - 1) = z := by
  constructor
  · rintro ⟨t, rfl⟩
    exact ⟨by simp, bufOf_last4 buf t w x y z⟩
  · rintro ⟨h4, hw, hx, hy, hz⟩
    obtain ⟨t, a, b, c, d, rfl⟩ := snoc4 l h4
    obtain ⟨ka, kb, kc, kd⟩ := bufOf_last4 buf t a b c d
    rw [ka] at hw; rw [kb] at hx; rw [kc] at hy; rw [kd] at hz
    subst hw hx hy hz
    exact ⟨t, rfl⟩

theorem bufOf_snoc_last (buf : Nat → Nat) (l : List Nat) (b : Nat) :
    bufOf buf (l ++ [b]) ((l ++ [b]).length - 1) = b := by
  have e : (l ++ [b]).length - 1 = l.length + 0 := by simp
  rw [e, bufOf_append_right]; simp

theorem infix_snoc (pat l : List Nat) (b : Nat) (h : pat <:+: l ++ [b]) :
    pat <:+: l ∨ pat <:+ l ++ [b] := by
  obtain ⟨u, v, huv⟩ := h
  rcases List.eq_nil_or_concat v with rfl | ⟨v1, c, rfl⟩
  · right; exact ⟨u, by simpa using huv⟩
  · left
    rw [List.concat_eq_append, ← List.append_assoc] at huv
    have h2 := List.append_inj_left' huv rfl
    exact ⟨u, v1, h2⟩

/-! ## One byte into an armed machine -/

theorem step_acc_lt (buf : Nat → Nat) (l : List Nat) (b : Nat)
    (h : l.length < RX_BUFFER_SIZE) :
    on_usart_received (acc buf l) b =
      if okLine <:+ l ++ [b] then done buf (l ++ [b]) else acc buf (l ++ [b]) := by
  have hlast := bufOf_snoc_last buf l b
  have hlen : (l ++ [b]).length = l.length + 1 := by simp
  have hsuf := suffix4_iff buf (l ++ [b]) 79 75 13 10
  rw [hlast] at hsuf
  rw [show okLine = [79, 75, 13, 10] from rfl, if_congr hsuf rfl rfl]
  simp only [on_usart_received, acc, done, h, bufset_bufOf, ← hlen]
  generalize bufOf buf (l ++ [b]) = g
  generalize (l ++ [b]).length = n
  simp only [Bool.not_true, Bool.false_eq_true, if_false, if_true]
  by_cases hb : b = 10
  · subst hb
    by_cases h13 : g (n - 2) = 13
    · by_cases h4 : 4 ≤ n
      · by_cases hok : g (n - 4) = 79 ∧ g (n - 3) = 75
        · have h2 : n ≥ 2 := by omega
          simp [h13, h4, hok, h2]
        · have h79 : ¬ g (n - 2) = 79 := by omega
          have hok2 : ¬ (g (n - 4) = 79 ∧ g (n - 3) = 75 ∧ g (n - 2) = 13) := by tauto
          simp only [h13, h79]
          simp [hok, hok2]
      · have h7 : ¬ 7 ≤ n := by omega
        simp [h4, h7]
    · simp [h13]
  · simp [hb]

theorem step_acc_ge (buf : Nat → Nat) (l : List Nat) (b : Nat)
    (h : RX_BUFFER_SIZE ≤ l.length) :
    on_usart_received (acc buf l) b = full buf l := by
  have h2 : ¬ l.length < RX_BUFFER_SIZE := by omega
  simp [on_usart_received, acc, full, h2]

theorem suffix_snoc (pat l : List Nat) (c b : Nat) :
    pat ++ [c] <:+ l ++ [b] ↔ c = b ∧ pat <:+ l := by
  rw [← List.reverse_prefix, ← @List.reverse_prefix _ pat l]
  simp [List.cons_prefix_cons]

theorem okLine_infix_snoc_ne (l : List Nat) (b : Nat) (hb : b ≠ 10) :
    okLine <:+: l ++ [b] ↔ okLine <:+: l := by
  constructor
  · intro h
    rcases infix_snoc okLine l b h with h1 | h1
    · exact h1
    · have := (suffix_snoc [79, 75, 13] l 10 b).1 h1
      exact absurd this.1.symm hb
  · intro h
    exact h.trans (List.infix_append' [] l [b])

theorem okLine_infix_snoc_lf (l : List Nat) :
    okLine <:+: l ++ [10] ↔ okLine <:+: l ∨ [79, 75, 13] <:+ l := by
  constructor
  · intro h
    rcases infix_snoc okLine l 10 h with h1 | h1
    · exact Or.inl h1
    · exact Or.inr ((suffix_snoc [79, 75, 13] l 10 10).1 h1).2
  · rintro (h | h)
    · exact h.trans (List.infix_append' [] l [10])
    · exact ((suffix_snoc [79, 75, 13] l 10 10).2 ⟨rfl, h⟩).isInfix

/-! ## Runs of the machine from a freshly armed state -/

theorem fresh_eq_acc (buf : Nat → Nat) : fresh buf = acc buf [] := by
  simp [fresh, acc, bufOf_nil]

/-- While no `OK\r\n` has appeared and the buffer has room, the machine stays
armed and holds every byte fed. -/
theorem feed_acc_quiet (buf : Nat → Nat) (s l : List Nat)
    (hlen : (l ++ s).length ≤ RX_BUFFER_SIZE) (hno : ¬ okLine <:+: l ++ s) :
    feed (acc buf l) s = acc buf (l ++ s) := by
  induction s generalizing l with
  | nil => simp [feed_nil]
  | cons b s ih =>
    have e : l ++ b :: s = (l ++ [b]) ++ s := by simp
    rw [e] at hlen hno
    have hl : l.length < RX_BUFFER_SIZE := by
      simp only [List.length_append, List.length_singleton] at hlen; omega
    have hsuf : ¬ okLine <:+ l ++ [b] := fun h =>
      hno (h.isInfix.trans (List.infix_append' [] (l ++ [b]) s))
    rw [feed_cons, step_acc_lt buf l b hl, if_neg hsuf, ih (l ++ [b]) hlen hno, e]

theorem feed_fresh_quiet (buf : Nat → Nat) (s : List Nat)
    (hlen : s.length ≤ RX_BUFFER_SIZE) (hno : ¬ okLine <:+: s) :
    feed (fresh buf) s = acc buf s := by
  rw [fresh_eq_acc]
  simpa using feed_acc_quiet buf s [] (by simpa using hlen) (by simpa using hno)

theorem captured_bufOf (buf : Nat → Nat) (l : List Nat) :
    (List.range l.length).map (bufOf buf l) = l := by
  apply List.ext_getElem
  · simp
  · intro i h1 h2
    simp [bufOf, List.getD_eq_getElem?_getD, List.getElem?_eq_getElem h2]

/-- Shape of every run from a freshly armed machine: the machine holds the
first `k` bytes fed and is armed, done or full; `k`, the flag and the result
do not depend on what the buffer held before. -/
theorem feed_fresh_shape (l : List Nat) :
    ∃ (k : Nat) (rdy : Bool) (res : Nat), k ≤ l.length ∧ k ≤ RX_BUFFER_SIZE ∧
      (∀ buf, feed (fresh buf) l =
        { rxdata := bufOf buf (l.take k), rxlen := k, rxready := rdy, rxresult := res }) ∧
      ((rdy = true ∧ res = RX_RESULT_FAIL ∧ k = l.length ∧ ¬ okLine <:+ l) ∨
       (rdy = false ∧ res = RX_RESULT_OK ∧ okLine <:+ l.take k) ∨
       (rdy = false ∧ res = RX_RESULT_FAIL ∧ k = RX_BUFFER_SIZE ∧ ¬ okLine <:+ l.take k)) := by
  induction l using List.reverseRecOn with
  | nil =>
    refine ⟨0, true, RX_RESULT_FAIL, le_refl _, Nat.zero_le _, ?_, Or.inl ⟨rfl, rfl, rfl, ?_⟩⟩
    · intro buf; simp [feed_nil, fresh, bufOf_nil]
    · intro h; have := h.length_le; simp [okLine] at this
  | append_singleton l b ih =>
    obtain ⟨k, rdy, res, hk, hk2, hst, hcase⟩ := ih
    rcases hcase with ⟨rfl, rfl, rfl, hns⟩ | ⟨rfl, rfl, hs⟩ | ⟨rfl, rfl, rfl, hs⟩
    · -- armed
      have hst2 : ∀ buf, feed (fresh buf) l = acc buf l := by
        intro buf; rw [hst buf, List.take_length, acc]
      by_cases hfull : l.length < RX_BUFFER_SIZE
      · by_cases hsuf : okLine <:+ l ++ [b]
        · refine ⟨l.length + 1, false, RX_RESULT_OK, by simp, hfull, ?_, Or.inr (Or.inl ⟨rfl, rfl, ?_⟩)⟩
          · intro buf
            rw [feed_snoc, hst2 buf, step_acc_lt buf l b hfull, if_pos hsuf, done]
            have : (l ++ [b]).take (l.length + 1) = l ++ [b] :=
              List.take_of_length_le (by simp)
            rw [this]; simp
          · rw [List.take_of_length_le (by simp)]; exact hsuf
        · refine ⟨l.length + 1, true, RX_RESULT_FAIL, by simp, hfull, ?_,
            Or.inl ⟨rfl, rfl, by simp, hsuf⟩⟩
          intro buf
          rw [feed_snoc, hst2 buf, step_acc_lt buf l b hfull, if_neg hsuf, acc]
          have : (l ++ [b]).take (l.length + 1) = l ++ [b] :=
            List.take_of_length_le (by simp)
          rw [this]; simp
      · have hge : RX_BUFFER_SIZE ≤ l.length := by omega
        have heq : l.length = RX_BUFFER_SIZE := by omega
        have ht : (l ++ [b]).take l.length = l := by simp
        refine ⟨l.length, false, RX_RESULT_FAIL, by simp, hk2, ?_,
          Or.inr (Or.inr ⟨rfl, rfl, heq, by rw [ht]; exact hns⟩)⟩
        intro buf
        rw [feed_snoc, hst2 buf, step_acc_ge buf l b hge, full, ht]
    · -- done
      have ht : (l ++ [b]).take k = l.take k := List.take_append_of_le_length hk
      refine ⟨k, false, RX_RESULT_OK, by simp; omega, hk2, ?_,
        Or.inr (Or.inl ⟨rfl, rfl, by rw [ht]; exact hs⟩)⟩
      intro buf
      rw [feed_snoc, hst buf, step_idle _ _ rfl, ht]
    · -- full
      have ht : (l ++ [b]).take RX_BUFFER_SIZE = l.take RX_BUFFER_SIZE :=
        List.take_append_of_le_length hk
      refine ⟨RX_BUFFER_SIZE, false, RX_RESULT_FAIL, by simp; omega, hk2, ?_,
        Or.inr (Or.inr ⟨rfl, rfl, rfl, by rw [ht]; exact hs⟩)⟩
      intro buf
      rw [feed_snoc, hst buf, step_idle _ _ rfl, ht]

end EspAt

namespace EspAt

/-! ## Claims on the receive state machine -/

theorem okLine_suffix_crlf (l : List Nat) :
    okLine <:+ (l ++ [13]) ++ [10] ↔ [79, 75] <:+ l := by
  rw [show okLine = ([79, 75] ++ [13]) ++ [10] from rfl, suffix_snoc, suffix_snoc]
  simp

theorem tail_quiet (p : List Nat) (hok : ¬ okLine <:+: p) (hend : ¬ [79, 75] <:+ p) :
    ¬ okLine <:+: p ++ [13, 10, 79, 75, 13] := by
  have e : p ++ [13, 10, 79, 75, 13] = ((((p ++ [13]) ++ [10]) ++ [79]) ++ [75]) ++ [13] := by
    simp
  rw [e, okLine_infix_snoc_ne _ _ (by decide), okLine_infix_snoc_ne _ _ (by decide),
    okLine_infix_snoc_ne _ _ (by decide), okLine_infix_snoc_lf,
    okLine_infix_snoc_ne _ _ (by decide)]
  rintro (h | h)
  · exact hok h
  · rw [show [79, 75, 13] = [79, 75] ++ [13] from rfl, suffix_snoc] at h
    exact hend h.2

/-- C1 (amended): from a freshly armed machine, for every `p` with no
`OK\r\n` and no `ERROR\r\n` inside it and `|p| + 6 <= 4096`, feeding `p` and
then `\r\nOK\r\n` ends with `rxresult = RX_RESULT_OK` and `rxready = false`;
`rxlen` is `|p| + 6` unless `p` itself ends in `OK`, in which case the first
CR LF already completes `OK\r\n` and `rxlen` is `|p| + 2`. -/
theorem ok_line_terminates (buf : Nat → Nat) (p : List Nat)
    (hok : ¬ okLine <:+: p) (herr : ¬ errorLine <:+: p)
    (hlen : p.length + 6 ≤ RX_BUFFER_SIZE) :
    (feed (fresh buf) (p ++ [13, 10, 79, 75, 13, 10])).rxresult = RX_RESULT_OK ∧
    (feed (fresh buf) (p ++ [13, 10, 79, 75, 13, 10])).rxready = false ∧
    (feed (fresh buf) (p ++ [13, 10, 79, 75, 13, 10])).rxlen =
      if [79, 75] <:+ p then p.length + 2 else p.length + 6 := by
  have _ := herr
  by_cases hend : [79, 75] <:+ p
  · have e : p ++ [13, 10, 79, 75, 13, 10] = (p ++ [13]) ++ (10 :: [79, 75, 13, 10]) := by simp
    have hq : ¬ okLine <:+: p ++ [13] := by
      rw [okLine_infix_snoc_ne _ _ (by decide)]; exact hok
    have h1 : feed (fresh buf) (p ++ [13]) = acc buf (p ++ [13]) :=
      feed_fresh_quiet buf _ (by simp; omega) hq
    have h2 : (p ++ [13]).length < RX_BUFFER_SIZE := by simp; omega
    rw [e, feed_append, h1, feed_cons, step_acc_lt buf _ 10 h2,
      if_pos ((okLine_suffix_crlf p).2 hend), feed_idle _ _ rfl, if_pos hend]
    simp [done]
  · have e : p ++ [13, 10, 79, 75, 13, 10] = (p ++ [13, 10, 79, 75, 13]) ++ [10] := by simp
    have h1 : feed (fresh buf) (p ++ [13, 10, 79, 75, 13]) = acc buf (p ++ [13, 10, 79, 75, 13]) :=
      feed_fresh_quiet buf _ (by simp; omega) (tail_quiet p hok hend)
    have h2 : (p ++ [13, 10, 79, 75, 13]).length < RX_BUFFER_SIZE := by simp; omega
    have h3 : okLine <:+ (p ++ [13, 10, 79, 75, 13]) ++ [10] :=
      ⟨p ++ [13, 10], by simp [okLine]⟩
    rw [e, feed_snoc, h1, step_acc_lt buf _ 10 h2, if_pos h3, if_neg hend]
    simp [done]

theorem ok_line_terminates_witness :
    (¬ okLine <:+: [65, 84]) ∧ (¬ errorLine <:+: [65, 84]) ∧
    ([65, 84] : List Nat).length + 6 ≤ RX_BUFFER_SIZE ∧
    (feed (fresh (fun _ => 0)) ([65, 84] ++ [13, 10, 79, 75, 13, 10])).rxresult = RX_RESULT_OK ∧
    (feed (fresh (fun _ => 0)) ([65, 84] ++ [13, 10, 79, 75, 13, 10])).rxready = false ∧
    (feed (fresh (fun _ => 0)) ([65, 84] ++ [13, 10, 79, 75, 13, 10])).rxlen =
      if [79, 75] <:+ [65, 84] then [65, 84].length + 2 else [65, 84].length + 6 :=
  ⟨by decide, by decide, by decide,
    ok_line_terminates (fun _ => 0) [65, 84] (by decide) (by decide) (by decide)⟩

/-- C1 (counterexample): `p = "OK"` contains neither `OK\r\n` nor `ERROR\r\n`
and fits, yet after `p` and `\r\nOK\r\n` the length is 4, not `|p| + 6 = 8`. -/
theorem ok_line_length_counterexample :
    (¬ okLine <:+: [79, 75]) ∧ (¬ errorLine <:+: [79, 75]) ∧
    ([79, 75] : List Nat).length + 6 ≤ RX_BUFFER_SIZE ∧
    (feed (fresh (fun _ => 0)) ([79, 75] ++ [13, 10, 79, 75, 13, 10])).rxlen = 4 ∧
    (feed (fresh (fun _ => 0)) ([79, 75] ++ [13, 10, 79, 75, 13, 10])).rxlen ≠
      ([79, 75] : List Nat).length + 6 := by
  decide

/-- C2 (the code at the failing input): after `\r\nERROR\r\n` the freshly armed
machine is still armed, its result is still the preset `RX_RESULT_FAIL`, not
`RX_RESULT_ERROR`, and all nine bytes were stored. -/
theorem error_line_not_detected :
    (feed (fresh (fun _ => 0)) ([13, 10] ++ errorLine)).rxready = true ∧
    (feed (fresh (fun _ => 0)) ([13, 10] ++ errorLine)).rxresult = RX_RESULT_FAIL ∧
    (feed (fresh (fun _ => 0)) ([13, 10] ++ errorLine)).rxresult ≠ RX_RESULT_ERROR ∧
    (feed (fresh (fun _ => 0)) ([13, 10] ++ errorLine)).rxlen = 9 := by
  decide

theorem replicate_quiet (pat : List Nat) (n c x : Nat) (hx : x ∈ pat) (hc : x ≠ c) :
    ¬ pat <:+: List.replicate n c := by
  intro h
  have := List.eq_of_mem_replicate (h.subset hx)
  exact hc this

/-- C4 (amended): for every 4096 bytes with no `OK\r\n` and no `ERROR\r\n`
among them, followed by one more byte, fed to a freshly armed machine: after
the 4097th byte `rxresult = RX_RESULT_FAIL`, `rxready = false`,
`rxlen = 4096`, and the buffer holds the first 4096 bytes, the 4097th not being
stored anywhere. -/
theorem overflow_at_capacity (buf : Nat → Nat) (s : List Nat) (b : Nat)
    (hlen : s.length = RX_BUFFER_SIZE)
    (hok : ¬ okLine <:+: s) (herr : ¬ errorLine <:+: s) :
    (feed (fresh buf) (s ++ [b])).rxresult = RX_RESULT_FAIL ∧
    (feed (fresh buf) (s ++ [b])).rxready = false ∧
    (feed (fresh buf) (s ++ [b])).rxlen = RX_BUFFER_SIZE ∧
    (feed (fresh buf) (s ++ [b])).rxdata = (feed (fresh buf) s).rxdata ∧
    captured (feed (fresh buf) (s ++ [b])) = s := by
  have _ := herr
  have h1 : feed (fresh buf) s = acc buf s := feed_fresh_quiet buf s (le_of_eq hlen) hok
  rw [feed_snoc, h1, step_acc_ge buf s b (le_of_eq hlen.symm)]
  refine ⟨rfl, rfl, hlen, rfl, ?_⟩
  simp [captured, full, captured_bufOf]

theorem overflow_at_capacity_witness :
    (List.replicate 4096 0).length = RX_BUFFER_SIZE ∧
    (feed (fresh (fun _ => 7)) (List.replicate 4096 0 ++ [5])).rxresult = RX_RESULT_FAIL ∧
    (feed (fresh (fun _ => 7)) (List.replicate 4096 0 ++ [5])).rxready = false ∧
    (feed (fresh (fun _ => 7)) (List.replicate 4096 0 ++ [5])).rxlen = RX_BUFFER_SIZE ∧
    (feed (fresh (fun _ => 7)) (List.replicate 4096 0 ++ [5])).rxdata =
      (feed (fresh (fun _ => 7)) (List.replicate 4096 0)).rxdata ∧
    captured (feed (fresh (fun _ => 7)) (List.replicate 4096 0 ++ [5])) =
      List.replicate 4096 0 :=
  ⟨List.length_replicate 4096 0,
    overflow_at_capacity (fun _ => 7) (List.replicate 4096 0) 5 (List.length_replicate 4096 0)
      (replicate_quiet okLine 4096 0 79 (by simp [okLine]) (by decide))
      (replicate_quiet errorLine 4096 0 69 (by simp [errorLine]) (by decide))⟩

/-- C4 (counterexample): the 4096 bytes `OK\r\n` followed by 4092 zero bytes,
and then one more byte: the machine stopped at the fourth byte with
`RX_RESULT_OK`, so after the 4097th byte the result is not `RX_RESULT_FAIL`
and `rxlen` is 4, not 4096. -/
theorem overflow_counterexample :
    (okLine ++ List.replicate 4092 0).length = RX_BUFFER_SIZE ∧
    (feed (fresh (fun _ => 0)) ((okLine ++ List.replicate 4092 0) ++ [0])).rxresult ≠
      RX_RESULT_FAIL ∧
    (feed (fresh (fun _ => 0)) ((okLine ++ List.replicate 4092 0) ++ [0])).rxlen = 4 := by
  have h : ∀ t, feed (fresh (fun _ => 0)) (okLine ++ t) = feed (fresh (fun _ => 0)) okLine := by
    intro t
    rw [feed_append, feed_idle _ _ (by decide)]
  refine ⟨by rw [List.length_append, List.length_replicate]; rfl, ?_, ?_⟩
  · rw [List.append_assoc, h]; decide
  · rw [List.append_assoc, h]; decide

/-- C6: for every `s` with `|s| <= 4096` in which no LF is immediately
preceded by `OK\r` or by `ERROR\r`, a freshly armed machine fed `s` is still
armed with the pending result, `rxlen = |s|`, and `rxdata[0..rxlen)` is `s` in
arrival order. -/
theorem unterminated_input_accumulates (buf : Nat → Nat) (s : List Nat)
    (hlen : s.length ≤ RX_BUFFER_SIZE)
    (hok : ¬ okLine <:+: s) (herr : ¬ errorLine <:+: s) :
    (feed (fresh buf) s).rxready = true ∧
    (feed (fresh buf) s).rxresult = RX_RESULT_FAIL ∧
    (feed (fresh buf) s).rxlen = s.length ∧
    captured (feed (fresh buf) s) = s := by
  have _ := herr
  rw [feed_fresh_quiet buf s hlen hok]
  refine ⟨rfl, rfl, rfl, ?_⟩
  simp [captured, acc, captured_bufOf]

theorem unterminated_input_accumulates_witness :
    (bytes "AT\r\nBUSY\r\n").length ≤ RX_BUFFER_SIZE ∧
    (¬ okLine <:+: bytes "AT\r\nBUSY\r\n") ∧ (¬ errorLine <:+: bytes "AT\r\nBUSY\r\n") ∧
    (feed (fresh (fun _ => 0)) (bytes "AT\r\nBUSY\r\n")).rxready = true ∧
    (feed (fresh (fun _ => 0)) (bytes "AT\r\nBUSY\r\n")).rxresult = RX_RESULT_FAIL ∧
    (feed (fresh (fun _ => 0)) (bytes "AT\r\nBUSY\r\n")).rxlen = (bytes "AT\r\nBUSY\r\n").length ∧
    captured (feed (fresh (fun _ => 0)) (bytes "AT\r\nBUSY\r\n")) = bytes "AT\r\nBUSY\r\n" :=
  ⟨by decide, by decide, by decide,
    unterminated_input_accumulates (fun _ => 0) (bytes "AT\r\nBUSY\r\n")
      (by decide) (by decide) (by decide)⟩

/-- C7: for every receive state with `rxready = false` and every byte
sequence, feeding the bytes leaves `rxlen`, the buffer, `rxresult` and
`rxready` unchanged. -/
theorem idle_input_discarded (s : RxState) (bs : List Nat) (h : s.rxready = false) :
    feed s bs = s :=
  feed_idle s bs h

theorem idle_input_discarded_witness :
    (done (fun _ => 0) okLine).rxready = false ∧
    feed (done (fun _ => 0) okLine) (bytes "\r\nERROR\r\nOK\r\n") = done (fun _ => 0) okLine :=
  ⟨rfl, idle_input_discarded (done (fun _ => 0) okLine) (bytes "\r\nERROR\r\nOK\r\n") rfl⟩

theorem usub32_exact (a b : Nat) (hb : b ≤ a) (ha : a < 2 ^ 32) : usub32 a b = a - b := by
  unfold usub32
  have : a + 2 ^ 32 - b = (a - b) + 2 ^ 32 := by omega
  rw [this, Nat.add_mod_right, Nat.mod_eq_of_lt (by omega)]

theorem sand_guard (c : Prop) [Decidable c] (x : Option Bool) :
    sand (some (decide c)) x = if c then x else some false := by
  by_cases h : c <;> simp [sand, h]

theorem eqAt_in (buf : Nat → Nat) (i c : Nat) (h : i < RX_BUFFER_SIZE) :
    eqAt buf i c = some (decide (buf i = c)) := by
  simp [eqAt, rd, h]

theorem sand_some (a : Bool) (x : Option Bool) :
    sand (some a) x = if a then x else some false := by
  simp [sand]

theorem checked_agrees (s : RxState) (b : Nat) :
    on_usart_received_checked s b = some (on_usart_received s b) := by
  unfold on_usart_received_checked on_usart_received
  by_cases hr : s.rxready = true
  swap
  · simp [hr]
  by_cases hl : s.rxlen < RX_BUFFER_SIZE
  swap
  · simp [hr, hl]
  have hR : RX_BUFFER_SIZE = 4096 := rfl
  have hn : (s.rxlen + 1) % 2 ^ 32 = s.rxlen + 1 := Nat.mod_eq_of_lt (by omega)
  simp only [hr, hl, wr, Bool.not_true, Bool.false_eq_true, if_false, if_true, Option.some_bind,
    hn]
  generalize bufset s.rxdata s.rxlen b = g
  generalize hm : s.rxlen + 1 = n
  have hq : ∀ k c, 1 ≤ k → k ≤ n →
      eqAt g (usub32 n k) c = some (decide (g (n - k) = c)) := by
    intro k c h1 hk
    rw [usub32_exact n k hk (by omega)]
    exact eqAt_in g (n - k) c (by omega)
  by_cases hb : b = 10
  swap
  · simp [hb]
  simp only [hb, if_true, sand_guard]
  by_cases h2 : n ≥ 2
  swap
  · simp [h2]
  have q1 := fun c => hq 1 c (by omega) (by omega)
  have q2 := fun c => hq 2 c (by omega) h2
  simp only [h2, if_true, q2, sand_some, Option.some_bind]
  by_cases h13 : g (n - 2) = 13
  swap
  · simp [h13]
  by_cases h4 : n ≥ 4
  swap
  · have h7 : ¬ n ≥ 7 := by omega
    simp [h13, h4, h7]
  have q3 := fun c => hq 3 c (by omega) (by omega)
  have q4 := fun c => hq 4 c (by omega) h4
  simp only [h13, h4, q3, q4, sand_some]
  by_cases hO : g (n - 4) = 79
  swap
  · by_cases h7 : n ≥ 7
    swap
    · simp [hO, h7]
    have q5 := fun c => hq 5 c (by omega) (by omega)
    simp only [q5, q1, sand_some]
    by_cases hE : g (n - 5) = 69 <;> by_cases hR1 : g (n - 4) = 82 <;>
      by_cases hR2 : g (n - 3) = 82 <;> simp [hO, h7, hE, hR1, hR2]
  by_cases hK : g (n - 3) = 75
  · simp [hO, hK]
  · by_cases h7 : n ≥ 7
    swap
    · simp [hO, hK, h7]
    have q5 := fun c => hq 5 c (by omega) (by omega)
    simp only [q5, q1, sand_some]
    by_cases hE : g (n - 5) = 69 <;> simp [hO, hK, h7, hE]

theorem step_rxlen_le (s : RxState) (b : Nat) (h : s.rxlen ≤ RX_BUFFER_SIZE) :
    (on_usart_received s b).rxlen ≤ RX_BUFFER_SIZE := by
  have hR : RX_BUFFER_SIZE = 4096 := rfl
  simp only [on_usart_received]
  split_ifs <;> first | omega | (simp only []; omega)

theorem feed_rxlen_le (s : RxState) (bs : List Nat) (h : s.rxlen ≤ RX_BUFFER_SIZE) :
    (feed s bs).rxlen ≤ RX_BUFFER_SIZE := by
  induction bs generalizing s with
  | nil => exact h
  | cons b bs ih => rw [feed_cons]; exact ih _ (step_rxlen_le s b h)

theorem step_writes_at (s : RxState) (b i : Nat)
    (h : (on_usart_received s b).rxdata i ≠ s.rxdata i) :
    i = s.rxlen ∧ s.rxlen < RX_BUFFER_SIZE := by
  unfold on_usart_received at h
  by_cases hr : s.rxready = true
  swap
  · simp [hr] at h
  by_cases hl : s.rxlen < RX_BUFFER_SIZE
  swap
  · simp [hr, hl] at h
  refine ⟨?_, hl⟩
  by_contra hi
  apply h
  simp only [hr, hl, Bool.not_true, Bool.false_eq_true, if_false, if_true]
  split_ifs <;> simp [bufset, hi]

/-- C5: `rxlen <= 4096` is preserved by `on_usart_received` for every byte in
every state, by any run of bytes, and by the reset of `esp_at_send_command`;
with the invariant, every access to `rxdata` made by `on_usart_received`
(the store and the backward reads at `rxlen - 1 .. rxlen - 5`, computed in
`uint32_t`) has its index inside `0 .. 4095`, and the only index whose byte can
change is the old `rxlen`, which is then below 4096. -/
theorem rxlen_invariant_and_bounds (s : RxState) (b : Nat) (bs : List Nat)
    (h : s.rxlen ≤ RX_BUFFER_SIZE) :
    (on_usart_received s b).rxlen ≤ RX_BUFFER_SIZE ∧
    (feed s bs).rxlen ≤ RX_BUFFER_SIZE ∧
    (arm s).rxlen ≤ RX_BUFFER_SIZE ∧
    on_usart_received_checked s b = some (on_usart_received s b) ∧
    (∀ i, (on_usart_received s b).rxdata i ≠ s.rxdata i →
      i = s.rxlen ∧ s.rxlen < RX_BUFFER_SIZE) :=
  ⟨step_rxlen_le s b h, feed_rxlen_le s bs h, Nat.zero_le _, checked_agrees s b,
    fun i hi => step_writes_at s b i hi⟩

theorem rxlen_invariant_and_bounds_witness :
    (acc (fun _ => 0) [79, 75, 13]).rxlen ≤ RX_BUFFER_SIZE ∧
    (on_usart_received (acc (fun _ => 0) [79, 75, 13]) 10).rxlen ≤ RX_BUFFER_SIZE ∧
    (feed (acc (fun _ => 0) [79, 75, 13]) [10, 10]).rxlen ≤ RX_BUFFER_SIZE ∧
    (arm (acc (fun _ => 0) [79, 75, 13])).rxlen ≤ RX_BUFFER_SIZE ∧
    on_usart_received_checked (acc (fun _ => 0) [79, 75, 13]) 10 =
      some (on_usart_received (acc (fun _ => 0) [79, 75, 13]) 10) ∧
    (∀ i, (on_usart_received (acc (fun _ => 0) [79, 75, 13]) 10).rxdata i ≠
        (acc (fun _ => 0) [79, 75, 13]).rxdata i →
      i = (acc (fun _ => 0) [79, 75, 13]).rxlen ∧
        (acc (fun _ => 0) [79, 75, 13]).rxlen < RX_BUFFER_SIZE) :=
  ⟨by decide, rxlen_invariant_and_bounds (acc (fun _ => 0) [79, 75, 13]) 10 [10, 10] (by decide)⟩

/-! ## The transaction engine -/

theorem wait_loop_rx (w : World) (t : Nat) (ticks : List (List Nat)) :
    (wait_loop w t ticks).1.rx = feed w.rx (ticks.take t).flatten := by
  induction t generalizing w ticks with
  | zero => simp [wait_loop, feed_nil]
  | succ t ih =>
    unfold wait_loop
    by_cases hr : w.rx.rxready = true
    · rw [if_pos hr, ih]
      cases ticks with
      | nil => simp [delay_ms, feed_nil]
      | cons hd tl => simp [delay_ms, feed_append]
    · have hr2 : w.rx.rxready = false := by simpa using hr
      rw [if_neg hr, feed_idle _ _ hr2]

theorem wait_loop_log (w : World) (t : Nat) (ticks : List (List Nat)) :
    ∃ n, n ≤ t ∧ (wait_loop w t ticks).1.log = w.log ++ List.replicate n (Event.delay 1) := by
  induction t generalizing w ticks with
  | zero => exact ⟨0, le_refl _, by simp [wait_loop]⟩
  | succ t ih =>
    unfold wait_loop
    by_cases hr : w.rx.rxready = true
    · rw [if_pos hr]
      obtain ⟨n, hn, hlog⟩ := ih (delay_ms w 1 (ticks.headD [])) ticks.tail
      refine ⟨n + 1, by omega, ?_⟩
      rw [hlog]
      simp [delay_ms, List.replicate_succ]
    · rw [if_neg hr]
      exact ⟨0, Nat.zero_le _, by simp⟩

theorem poll_end_rx (w : World) (cmd : List Nat) (timeout : Nat) (sc : Schedule) :
    (poll_end w cmd timeout sc).rx = feed (fresh w.rx.rxdata) (window timeout sc) := by
  simp only [poll_end, wait_loop_rx, window, feed_append, esp_usart_write_string]
  rfl

theorem poll_end_log (w : World) (cmd : List Nat) (timeout : Nat) (sc : Schedule) :
    ∃ n, n ≤ timeout ∧ (poll_end w cmd timeout sc).log = w.log ++ txn_log cmd n := by
  obtain ⟨n, hn, hlog⟩ := wait_loop_log
    { rx := feed (arm w.rx) sc.during_write,
      log := w.log ++ [Event.write cmd] ++ [Event.write [13, 10]] } timeout sc.ticks
  refine ⟨n, hn, ?_⟩
  simp only [poll_end, esp_usart_write_string]
  rw [hlog]
  simp [txn_log]

/-- The outcome of a transaction depends only on the budget and the schedule,
not on the command or on what the buffer held before. -/
theorem send_ret_eq (w : World) (cmd : List Nat) (timeout : Nat) (sc : Schedule) :
    (esp_at_send_command w cmd timeout sc).ret = txn_ok timeout sc := by
  obtain ⟨k, rdy, res, _, _, hst, _⟩ := feed_fresh_shape (window timeout sc)
  simp only [txn_ok, esp_at_send_command, poll_end_rx, hst]

theorem take_take_le (l : List Nat) (k m : Nat) (h : k ≤ m) :
    l.take k = (l.take m).take k := by
  rw [List.take_take, Nat.min_eq_left h]

/-- C3: for every command, timeout and schedule, `esp_at_send_command` returns
true exactly when `rxresult` is `RX_RESULT_OK` when polling ends, which is
exactly when the captured bytes end in `OK\r\n`; a poll that ends still armed
(timeout), a result `RX_RESULT_ERROR` or `RX_RESULT_FAIL`, and a window with
no `OK\r\n` in its first 4096 bytes all return false; and in every outcome
`*length` is `rxlen <= 4096`, `*rsp` is the buffer, and `rsp[0..length)` are
the first `length` bytes the transport delivered in this transaction. -/
theorem send_command_outcome (w : World) (cmd : List Nat) (timeout : Nat) (sc : Schedule) :
    ((esp_at_send_command w cmd timeout sc).ret = true ↔
      (poll_end w cmd timeout sc).rx.rxresult = RX_RESULT_OK) ∧
    ((esp_at_send_command w cmd timeout sc).ret = true ↔
      okLine <:+ captured (esp_at_send_command w cmd timeout sc).world.rx) ∧
    ((poll_end w cmd timeout sc).rx.rxready = true →
      (esp_at_send_command w cmd timeout sc).ret = false) ∧
    ((poll_end w cmd timeout sc).rx.rxresult = RX_RESULT_ERROR →
      (esp_at_send_command w cmd timeout sc).ret = false) ∧
    ((poll_end w cmd timeout sc).rx.rxresult = RX_RESULT_FAIL →
      (esp_at_send_command w cmd timeout sc).ret = false) ∧
    (¬ okLine <:+: (window timeout sc).take RX_BUFFER_SIZE →
      (esp_at_send_command w cmd timeout sc).ret = false) ∧
    (esp_at_send_command w cmd timeout sc).length = (poll_end w cmd timeout sc).rx.rxlen ∧
    (esp_at_send_command w cmd timeout sc).length ≤ RX_BUFFER_SIZE ∧
    (esp_at_send_command w cmd timeout sc).rsp = (poll_end w cmd timeout sc).rx.rxdata ∧
    (List.range (esp_at_send_command w cmd timeout sc).length).map
        (esp_at_send_command w cmd timeout sc).rsp =
      (window timeout sc).take (esp_at_send_command w cmd timeout sc).length := by
  obtain ⟨k, rdy, res, hk, hk2, hst, hcase⟩ := feed_fresh_shape (window timeout sc)
  have hlen : ((window timeout sc).take k).length = k := by
    rw [List.length_take]; omega
  have hcap : (List.range k).map (bufOf w.rx.rxdata ((window timeout sc).take k)) =
      (window timeout sc).take k := by
    have := captured_bufOf w.rx.rxdata ((window timeout sc).take k)
    rwa [hlen] at this
  simp only [esp_at_send_command, poll_end_rx, hst, captured, hcap, decide_eq_true_eq,
    decide_eq_false_iff_not]
  rcases hcase with ⟨rfl, rfl, rfl, hns⟩ | ⟨rfl, rfl, hs⟩ | ⟨rfl, rfl, rfl, hs⟩
  · rw [List.take_length]
    simp [RX_RESULT_OK, RX_RESULT_FAIL, RX_RESULT_ERROR, hns, hk2]
  · have hin : okLine <:+: (window timeout sc).take RX_BUFFER_SIZE := by
      rw [take_take_le _ k RX_BUFFER_SIZE hk2] at hs
      exact hs.isInfix.trans (List.take_prefix _ _).isInfix
    simp [RX_RESULT_OK, RX_RESULT_FAIL, RX_RESULT_ERROR, hs, hk2, hin]
  · simp [RX_RESULT_OK, RX_RESULT_FAIL, RX_RESULT_ERROR, hs]

theorem window_silent (timeout : Nat) (sc : Schedule) (h : silent sc) :
    window timeout sc = [] := by
  obtain ⟨h1, h2⟩ := h
  simp only [window, h1, List.nil_append, List.flatten_eq_nil_iff]
  intro l hl
  exact h2 l (List.mem_of_mem_take hl)

/-- C8: for every command and every timeout (0 included), when the transport
delivers no byte during the call (`quiet`), `esp_at_send_command` returns false
with reported length 0; and under every schedule `sc`, whatever the outcome,
`rxready` is false when `esp_at_send_command` returns. -/
theorem send_command_silent_and_disarmed (w : World) (cmd : List Nat) (timeout : Nat)
    (sc quiet : Schedule) (hq : silent quiet) :
    (esp_at_send_command w cmd timeout quiet).ret = false ∧
    (esp_at_send_command w cmd timeout quiet).length = 0 ∧
    (esp_at_send_command w cmd timeout sc).world.rx.rxready = false := by
  refine ⟨?_, ?_, rfl⟩
  · simp [esp_at_send_command, poll_end_rx, window_silent timeout quiet hq, feed_nil, fresh,
      RX_RESULT_FAIL, RX_RESULT_OK]
  · simp [esp_at_send_command, poll_end_rx, window_silent timeout quiet hq, feed_nil, fresh]

theorem send_command_silent_and_disarmed_witness :
    silent { during_write := [], ticks := [[], []] } ∧
    (esp_at_send_command { rx := done (fun _ => 0) okLine, log := [] } (bytes "AT") 0
      { during_write := [], ticks := [[], []] }).ret = false ∧
    (esp_at_send_command { rx := done (fun _ => 0) okLine, log := [] } (bytes "AT") 0
      { during_write := [], ticks := [[], []] }).length = 0 ∧
    (esp_at_send_command { rx := done (fun _ => 0) okLine, log := [] } (bytes "AT") 0
      { during_write := [13, 10], ticks := [okLine] }).world.rx.rxready = false :=
  ⟨by decide,
    send_command_silent_and_disarmed { rx := done (fun _ => 0) okLine, log := [] } (bytes "AT") 0
      { during_write := [13, 10], ticks := [okLine] } { during_write := [], ticks := [[], []] }
      (by decide)⟩

theorem send_world_log (w : World) (cmd : List Nat) (timeout : Nat) (sc : Schedule) :
    ∃ n, n ≤ timeout ∧ (esp_at_send_command w cmd timeout sc).world.log = w.log ++ txn_log cmd n :=
  poll_end_log w cmd timeout sc

/-- C9: `esp_at_reset` returns true exactly when the three transactions
succeed, and what it does to the outside is: the transaction `AT+RESTORE`;
then, only if that succeeded, the delay of 2000 ms and the transaction `ATE0`;
then, only if that succeeded, the transaction `AT+SYSSTORE=0`; nothing is
written after the first failing transaction. -/
theorem reset_sequence (w : World) (sc1 sc2 sc3 : Schedule) (settle : List Nat) :
    (esp_at_reset w sc1 sc2 sc3 settle).2 =
      (txn_ok 1000 sc1 && txn_ok 1000 sc2 && txn_ok 1000 sc3) ∧
    ∃ n1 n2 n3, n1 ≤ 1000 ∧ n2 ≤ 1000 ∧ n3 ≤ 1000 ∧
      (esp_at_reset w sc1 sc2 sc3 settle).1.log =
        w.log ++ txn_log (bytes "AT+RESTORE") n1 ++
          (if txn_ok 1000 sc1 then
            Event.delay 2000 :: txn_log (bytes "ATE0") n2 ++
              (if txn_ok 1000 sc2 then txn_log (bytes "AT+SYSSTORE=0") n3 else [])
          else []) := by
  obtain ⟨n1, h1, l1⟩ := send_world_log w (bytes "AT+RESTORE") 1000 sc1
  obtain ⟨n2, h2, l2⟩ := send_world_log
    (delay_ms (esp_at_send_command w (bytes "AT+RESTORE") 1000 sc1).world 2000 settle)
    (bytes "ATE0") 1000 sc2
  obtain ⟨n3, h3, l3⟩ := send_world_log
    (esp_at_send_command
      (delay_ms (esp_at_send_command w (bytes "AT+RESTORE") 1000 sc1).world 2000 settle)
      (bytes "ATE0") 1000 sc2).world (bytes "AT+SYSSTORE=0") 1000 sc3
  have e1 := send_ret_eq w (bytes "AT+RESTORE") 1000 sc1
  have e2 := send_ret_eq
    (delay_ms (esp_at_send_command w (bytes "AT+RESTORE") 1000 sc1).world 2000 settle)
    (bytes "ATE0") 1000 sc2
  have e3 := send_ret_eq
    (esp_at_send_command
      (delay_ms (esp_at_send_command w (bytes "AT+RESTORE") 1000 sc1).world 2000 settle)
      (bytes "ATE0") 1000 sc2).world (bytes "AT+SYSSTORE=0") 1000 sc3
  simp only [esp_at_reset, e1, e2, e3]
  refine ⟨?_, n1, n2, n3, h1, h2, h3, ?_⟩
  · cases txn_ok 1000 sc1 <;> cases txn_ok 1000 sc2 <;> cases txn_ok 1000 sc3 <;> rfl
  · have ld : (delay_ms (esp_at_send_command w (bytes "AT+RESTORE") 1000 sc1).world 2000
        settle).log = w.log ++ txn_log (bytes "AT+RESTORE") n1 ++ [Event.delay 2000] := by
      rw [← l1]; rfl
    rw [ld] at l2
    rw [l2] at l3
    cases txn_ok 1000 sc1
    · simp [l1]
    · cases txn_ok 1000 sc2
      · simp [l2]
      · cases txn_ok 1000 sc3
        · simp [l3]
        · simp [l3]

/-! ## Responses ending in the `OK` line -/

theorem feed_ok_late (buf : Nat → Nat) (p : List Nat)
    (hok : ¬ okLine <:+: p) (hend : ¬ [79, 75] <:+ p)
    (hlen : p.length + 6 ≤ RX_BUFFER_SIZE) :
    feed (fresh buf) (p ++ [13, 10, 79, 75, 13, 10]) =
      done buf (p ++ [13, 10, 79, 75, 13, 10]) := by
  have e : p ++ [13, 10, 79, 75, 13, 10] = (p ++ [13, 10, 79, 75, 13]) ++ [10] := by simp
  have h1 : feed (fresh buf) (p ++ [13, 10, 79, 75, 13]) = acc buf (p ++ [13, 10, 79, 75, 13]) :=
    feed_fresh_quiet buf _ (by simp; omega) (tail_quiet p hok hend)
  have h2 : (p ++ [13, 10, 79, 75, 13]).length < RX_BUFFER_SIZE := by simp; omega
  have h3 : okLine <:+ (p ++ [13, 10, 79, 75, 13]) ++ [10] :=
    ⟨p ++ [13, 10], by simp [okLine]⟩
  rw [e, feed_snoc, h1, step_acc_lt buf _ 10 h2, if_pos h3]

theorem feed_ok_early (buf : Nat → Nat) (p rest : List Nat)
    (hok : ¬ okLine <:+: p) (hend : [79, 75] <:+ p)
    (hlen : p.length + 2 ≤ RX_BUFFER_SIZE) :
    feed (fresh buf) (p ++ [13, 10] ++ rest) = done buf (p ++ [13, 10]) := by
  have e : p ++ [13, 10] ++ rest = (p ++ [13]) ++ (10 :: rest) := by simp
  have hq : ¬ okLine <:+: p ++ [13] := by
    rw [okLine_infix_snoc_ne _ _ (by decide)]; exact hok
  have h1 : feed (fresh buf) (p ++ [13]) = acc buf (p ++ [13]) :=
    feed_fresh_quiet buf _ (by simp; omega) hq
  have h2 : (p ++ [13]).length < RX_BUFFER_SIZE := by simp; omega
  rw [e, feed_append, h1, feed_cons, step_acc_lt buf _ 10 h2,
    if_pos ((okLine_suffix_crlf p).2 hend), feed_idle _ _ rfl]
  simp

theorem no_cr_quiet (p : List Nat) (h : 13 ∉ p) : ¬ okLine <:+: p := by
  intro hin
  exact h (hin.subset (by simp [okLine]))

/-- Behind a marker that ends in a colon, a text ends in `OK` only when the
part after the marker does. -/
theorem suffix_behind_marker (mk a : List Nat) (h1 : ¬ [79, 75] <:+ mk) (h2 : ¬ [79] <:+ mk)
    (h : [79, 75] <:+ mk ++ a) : [79, 75] <:+ a := by
  rcases List.eq_nil_or_concat a with rfl | ⟨a1, x, rfl⟩
  · exact absurd (by simpa using h) h1
  · rw [List.concat_eq_append] at h ⊢
    rw [← List.append_assoc, show [79, 75] = [79] ++ [75] from rfl, suffix_snoc] at h
    obtain ⟨hx, h⟩ := h
    rcases List.eq_nil_or_concat a1 with rfl | ⟨a2, y, rfl⟩
    · exact absurd (by simpa using h) h2
    · rw [List.concat_eq_append] at h ⊢
      rw [← List.append_assoc, show [79] = [] ++ [79] from rfl, suffix_snoc] at h
      obtain ⟨hy, _⟩ := h
      subst hx hy
      exact ⟨a2, by simp⟩

/-! ## Reading the response back -/

theorem matchAt_bufOf (buf : Nat → Nat) (pre m post : List Nat)
    (hlen : pre.length + m.length ≤ RX_BUFFER_SIZE) :
    matchAt (bufOf buf (pre ++ m ++ post)) pre.length m = some true := by
  induction m generalizing pre with
  | nil => rfl
  | cons c cs ih =>
    have hlt : pre.length < RX_BUFFER_SIZE := by simp at hlen; omega
    have hc : bufOf buf (pre ++ c :: cs ++ post) pre.length = c := by
      have := bufOf_append_right buf pre (c :: cs ++ post) 0
      simpa using this
    have e : pre ++ c :: cs ++ post = (pre ++ [c]) ++ cs ++ post := by simp
    have ih2 := ih (pre ++ [c]) (by simp at hlen ⊢; omega)
    rw [matchAt, if_pos hlt, if_pos hc, e]
    simpa using ih2

theorem set_at_length (v tl : List Nat) (x y : Nat) :
    (v ++ x :: tl).set v.length y = v ++ y :: tl := by
  induction v with
  | nil => rfl
  | cons a v ih => simp [ih]

/-- The copy loop on a source that holds `a`, then a CR: the bytes of `a` are
stored behind what is already there and a NUL follows them. -/
theorem copy_ip_run (src : Nat → Option Nat) (a : List Nat) (fuel : Nat) (stored rest : List Nat)
    (hsrc : ∀ j, j ≤ a.length → src (stored.length + j) = some ((a ++ [13]).getD j 0))
    (hcr : 13 ∉ a) (hfuel : a.length < fuel) (hrest : a.length < rest.length) :
    copy_ip src fuel stored.length (stored ++ rest) =
      some (stored ++ a ++ 0 :: rest.drop (a.length + 1)) := by
  induction a generalizing fuel stored rest with
  | nil =>
    obtain ⟨f, rfl⟩ : ∃ f, fuel = f + 1 := ⟨fuel - 1, by simp at hfuel; omega⟩
    obtain ⟨r0, rs, rfl⟩ : ∃ r0 rs, rest = r0 :: rs := by
      cases rest with
      | nil => simp at hrest
      | cons r0 rs => exact ⟨r0, rs, rfl⟩
    have h0 := hsrc 0 (Nat.zero_le _)
    simp only [Nat.add_zero] at h0
    rw [copy_ip, h0]
    simp [set_at_length]
  | cons x a ih =>
    obtain ⟨f, rfl⟩ : ∃ f, fuel = f + 1 := ⟨fuel - 1, by simp at hfuel; omega⟩
    obtain ⟨r0, rs, rfl⟩ : ∃ r0 rs, rest = r0 :: rs := by
      cases rest with
      | nil => simp at hrest
      | cons r0 rs => exact ⟨r0, rs, rfl⟩
    have h0 := hsrc 0 (Nat.zero_le _)
    simp only [Nat.add_zero] at h0
    have hx : x ≠ 13 := fun h => hcr (by simp [h])
    have hcr2 : 13 ∉ a := fun h => hcr (by simp [h])
    have ih2 := ih f (stored ++ [x]) rs
      (fun j hj => by
        have := hsrc (j + 1) (by simp; omega)
        simpa [Nat.add_assoc, Nat.add_comm 1 j] using this)
      hcr2 (by simp at hfuel; omega) (by simp at hrest; omega)
    rw [copy_ip, h0]
    simp only [List.cons_append, List.getD_cons_zero, Option.some_bind, if_neg hx,
      set_at_length]
    have e : stored ++ x :: rs = (stored ++ [x]) ++ rs := by simp
    have e2 : stored.length + 1 = (stored ++ [x]).length := by simp
    rw [e, e2, ih2]
    simp

theorem getD_in_front (a tail : List Nat) (c d j : Nat) (hj : j ≤ a.length) :
    (a ++ c :: tail).getD j d = (a ++ [c]).getD j 0 := by
  have e : a ++ c :: tail = (a ++ [c]) ++ tail := by simp
  have hlt : j < (a ++ [c]).length := by simp; omega
  rw [e, List.getD_append _ _ _ _ hlt, List.getD_eq_getElem _ _ hlt, List.getD_eq_getElem _ _ hlt]

/-- After a transaction that stored the marker, `a`, a CR and more, the ip
post-processing finds the marker at offset 0 and copies `a` and a NUL. -/
theorem get_ip_of_done (w : World) (sc : Schedule) (ip : List Nat) (lowmem : Nat → Nat)
    (a tail : List Nat)
    (hres : (poll_end w (bytes "AT+CIPSTA?") 1000 sc).rx =
      done w.rx.rxdata (bytes "+CIPSTA:ip:" ++ a ++ 13 :: tail))
    (hip : ip.length = 16) (hlen : a.length ≤ 15) (hcr : 13 ∉ a) :
    ∃ w2, esp_at_wifi_get_ip w sc ip lowmem =
        some (w2, true, a ++ 0 :: ip.drop (a.length + 1)) ∧
      w2.rx.rxresult = RX_RESULT_OK ∧
      w2.rx.rxlen = (bytes "+CIPSTA:ip:" ++ a ++ 13 :: tail).length := by
  have hR : RX_BUFFER_SIZE = 4095 + 1 := rfl
  have hm : matchAt (bufOf w.rx.rxdata (bytes "+CIPSTA:ip:" ++ a ++ 13 :: tail)) 0
      (bytes "+CIPSTA:ip:") = some true := by
    have := matchAt_bufOf w.rx.rxdata [] (bytes "+CIPSTA:ip:") (a ++ 13 :: tail)
      (by decide)
    simpa using this
  have hsrc : ∀ j, j ≤ a.length →
      load (bufOf w.rx.rxdata (bytes "+CIPSTA:ip:" ++ a ++ 13 :: tail)) lowmem
        ((Ptr.buf 11).add (([] : List Nat).length + j)) = some ((a ++ [13]).getD j 0) := by
    intro j hj
    have hb := bufOf_append_right w.rx.rxdata (bytes "+CIPSTA:ip:") (a ++ 13 :: tail) j
    have h11 : (bytes "+CIPSTA:ip:").length = 11 := by decide
    rw [h11, getD_in_front a tail 13 _ j hj] at hb
    have hlt : 11 + j < RX_BUFFER_SIZE := by rw [hR]; omega
    simp only [Ptr.add, load, rd, List.length_nil, Nat.zero_add, if_pos hlt,
      List.append_assoc] at hb ⊢
    rw [hb]
  have hrun := copy_ip_run
    (fun i => load (bufOf w.rx.rxdata (bytes "+CIPSTA:ip:" ++ a ++ 13 :: tail)) lowmem
      ((Ptr.buf 11).add i)) a 16 [] ip hsrc hcr (by omega) (by omega)
  simp only [List.length_nil, List.nil_append] at hrun
  have hret : (esp_at_send_command w (bytes "AT+CIPSTA?") 1000 sc).ret = true := by
    simp [esp_at_send_command, hres, done]
  have hrsp : (esp_at_send_command w (bytes "AT+CIPSTA?") 1000 sc).rsp =
      bufOf w.rx.rxdata (bytes "+CIPSTA:ip:" ++ a ++ 13 :: tail) := by
    simp [esp_at_send_command, hres, done]
  have h11 : (bytes "+CIPSTA:ip:").length = 11 := by decide
  refine ⟨(esp_at_send_command w (bytes "AT+CIPSTA?") 1000 sc).world, ?_, ?_, ?_⟩
  · simp only [esp_at_wifi_get_ip, hret, hrsp]
    rw [hR, strstr_buf, hm]
    simp only [Bool.not_true, Bool.false_eq_true, if_false, Option.some_bind, Ptr.add,
      Ptr.nonNull, if_true, h11, Nat.zero_add]
    simp only [Ptr.add] at hrun
    rw [hrun]
    rfl
  · simp [esp_at_send_command, hres, done]
  · simp [esp_at_send_command, hres, done]

/-- C14 (amended): for every `a` of length at most 15 with no CR, when the
bytes delivered within the budget of the transaction started by
`esp_at_wifi_get_ip` are `+CIPSTA:ip:`, `a`, `\r\n\r\nOK\r\n`: the transaction
ends with `RX_RESULT_OK`, `esp_at_wifi_get_ip` returns true, and `ip` holds `a`
followed by a NUL. The result is reached at the final LF (all bytes stored)
when `a` does not end in `OK`; when it does, it is reached at the first LF, the
one that ends the line of `a`. -/
theorem get_ip_extracts (w : World) (sc : Schedule) (ip : List Nat) (lowmem : Nat → Nat)
    (a : List Nat) (hip : ip.length = 16) (hlen : a.length ≤ 15) (hcr : 13 ∉ a)
    (hwin : window 1000 sc = bytes "+CIPSTA:ip:" ++ a ++ bytes "\r\n\r\nOK\r\n") :
    ∃ w2, esp_at_wifi_get_ip w sc ip lowmem =
        some (w2, true, a ++ 0 :: ip.drop (a.length + 1)) ∧
      w2.rx.rxresult = RX_RESULT_OK ∧
      w2.rx.rxlen = if [79, 75] <:+ a then 11 + a.length + 2 else 11 + a.length + 8 := by
  have h11 : (bytes "+CIPSTA:ip:").length = 11 := by decide
  have hR : RX_BUFFER_SIZE = 4096 := rfl
  have hq : ¬ okLine <:+: bytes "+CIPSTA:ip:" ++ a := by
    apply no_cr_quiet
    intro hm
    rcases List.mem_append.1 hm with h | h
    · exact absurd h (by decide)
    · exact hcr h
  have hrx := poll_end_rx w (bytes "AT+CIPSTA?") 1000 sc
  rw [hwin] at hrx
  by_cases hend : [79, 75] <:+ a
  · have hend2 : [79, 75] <:+ bytes "+CIPSTA:ip:" ++ a :=
      hend.trans (List.suffix_append _ _)
    have e : bytes "+CIPSTA:ip:" ++ a ++ bytes "\r\n\r\nOK\r\n" =
        (bytes "+CIPSTA:ip:" ++ a) ++ [13, 10] ++ [13, 10, 79, 75, 13, 10] := by
      simp [bytes]
    rw [e, feed_ok_early _ _ _ hq hend2 (by simp [h11]; omega)] at hrx
    have e2 : bytes "+CIPSTA:ip:" ++ a ++ [13, 10] = bytes "+CIPSTA:ip:" ++ a ++ 13 :: [10] := by
      simp
    rw [e2] at hrx
    obtain ⟨w2, h1, h2, h3⟩ := get_ip_of_done w sc ip lowmem a [10] hrx hip hlen hcr
    refine ⟨w2, h1, h2, ?_⟩
    rw [h3, if_pos hend]
    simp [h11]; omega
  · have e : bytes "+CIPSTA:ip:" ++ a ++ bytes "\r\n\r\nOK\r\n" =
        (bytes "+CIPSTA:ip:" ++ a ++ [13, 10]) ++ [13, 10, 79, 75, 13, 10] := by
      simp [bytes]
    have hq2 : ¬ okLine <:+: bytes "+CIPSTA:ip:" ++ a ++ [13, 10] := by
      have e3 : bytes "+CIPSTA:ip:" ++ a ++ [13, 10] =
          ((bytes "+CIPSTA:ip:" ++ a) ++ [13]) ++ [10] := by simp
      rw [e3, okLine_infix_snoc_lf, okLine_infix_snoc_ne _ _ (by decide)]
      rintro (h | h)
      · exact hq h
      · rw [show [79, 75, 13] = [79, 75] ++ [13] from rfl, suffix_snoc] at h
        exact hend (suffix_behind_marker _ a (by decide) (by decide) h.2)
    have hend3 : ¬ [79, 75] <:+ bytes "+CIPSTA:ip:" ++ a ++ [13, 10] := by
      have e3 : bytes "+CIPSTA:ip:" ++ a ++ [13, 10] =
          ((bytes "+CIPSTA:ip:" ++ a) ++ [13]) ++ [10] := by simp
      rw [e3, show [79, 75] = [79] ++ [75] from rfl, suffix_snoc]
      intro h
      exact absurd h.1 (by decide)
    rw [e, feed_ok_late _ _ hq2 hend3 (by simp [h11]; omega)] at hrx
    have e2 : bytes "+CIPSTA:ip:" ++ a ++ [13, 10] ++ [13, 10, 79, 75, 13, 10] =
        bytes "+CIPSTA:ip:" ++ a ++ 13 :: [10, 13, 10, 79, 75, 13, 10] := by
      simp
    rw [e2] at hrx
    obtain ⟨w2, h1, h2, h3⟩ :=
      get_ip_of_done w sc ip lowmem a [10, 13, 10, 79, 75, 13, 10] hrx hip hlen hcr
    refine ⟨w2, h1, h2, ?_⟩
    rw [h3, if_neg hend]
    simp [h11]; omega

set_option maxRecDepth 100000 in
theorem get_ip_extracts_witness :
    (List.replicate 16 88).length = 16 ∧ (bytes "192.168.1.1").length ≤ 15 ∧
    13 ∉ bytes "192.168.1.1" ∧
    window 1000 (byte_by_byte (bytes "+CIPSTA:ip:192.168.1.1\r\n\r\nOK\r\n")) =
      bytes "+CIPSTA:ip:" ++ bytes "192.168.1.1" ++ bytes "\r\n\r\nOK\r\n" ∧
    ∃ w2, esp_at_wifi_get_ip world0
        (byte_by_byte (bytes "+CIPSTA:ip:192.168.1.1\r\n\r\nOK\r\n"))
        (List.replicate 16 88) (fun _ => 65) =
        some (w2, true,
          bytes "192.168.1.1" ++ 0 :: (List.replicate 16 88).drop ((bytes "192.168.1.1").length + 1)) ∧
      w2.rx.rxresult = RX_RESULT_OK ∧
      w2.rx.rxlen = if [79, 75] <:+ bytes "192.168.1.1"
        then 11 + (bytes "192.168.1.1").length + 2 else 11 + (bytes "192.168.1.1").length + 8 :=
  ⟨by decide, by decide, by decide, by decide,
    get_ip_extracts world0 (byte_by_byte (bytes "+CIPSTA:ip:192.168.1.1\r\n\r\nOK\r\n"))
      (List.replicate 16 88) (fun _ => 65) (bytes "192.168.1.1")
      (by decide) (by decide) (by decide) (by decide)⟩

set_option maxRecDepth 100000 in
/-- C14 (counterexample): `a = "OK"` has length 2 and holds no CR and no NUL;
with `+CIPSTA:ip:OK\r\n\r\nOK\r\n` delivered byte by byte the call returns true
with `ip = "OK"`, but the machine stopped after 15 of the 21 bytes, at the LF
of the first line and not at the final LF. -/
theorem get_ip_early_line_counterexample :
    (bytes "OK").length ≤ 15 ∧ 13 ∉ bytes "OK" ∧ 0 ∉ bytes "OK" ∧
    (bytes "+CIPSTA:ip:OK\r\n\r\nOK\r\n").length = 21 ∧
    (esp_at_wifi_get_ip world0 (byte_by_byte (bytes "+CIPSTA:ip:OK\r\n\r\nOK\r\n"))
      (List.replicate 16 88) (fun _ => 65)).map (fun r => (r.1.rx.rxlen, r.2.1)) =
      some (15, true) := by
  decide

set_option maxRecDepth 100000 in
/-- C15 (the code at the failing input): the successful response
`+CIPSTA:ip:1234567890123456\r\n\r\nOK\r\n` holds the marker followed by 16
bytes with no CR; `esp_at_wifi_get_ip` returns true and the 16-byte `ip` holds
those 16 bytes, none of them NUL: the run is copied unterminated. -/
theorem get_ip_unterminated :
    outcome (esp_at_wifi_get_ip world0
      (byte_by_byte (bytes "+CIPSTA:ip:1234567890123456\r\n\r\nOK\r\n"))
      (List.replicate 16 88) (fun _ => 65)) = some (true, bytes "1234567890123456") ∧
    (bytes "1234567890123456").length = 16 ∧ 0 ∉ bytes "1234567890123456" := by
  decide

set_option maxRecDepth 100000 in
/-- C16 (the code at the failing input): the response `\r\nOK\r\n` ends the
transaction with Ok and does not hold `+CIPSTA:ip:`; `strstr` returns NULL,
`pip = NULL + 11` passes the test `if (pip)`, and `esp_at_wifi_get_ip` returns
true after overwriting all 16 bytes of `ip` with the bytes at addresses 11 to
26 (here `65`). -/
theorem get_ip_marker_absent :
    (¬ bytes "+CIPSTA:ip:" <:+: bytes "\r\nOK\r\n") ∧
    outcome (esp_at_wifi_get_ip world0 (byte_by_byte (bytes "\r\nOK\r\n"))
      (List.replicate 16 88) (fun _ => 65)) = some (true, List.replicate 16 65) := by
  decide

set_option maxRecDepth 100000 in
/-- C17 (the code at the failing input): for `m = 00:11:22:33:44:55` and the
response `+CIPSTAMAC:mac:` `m` `\r\n\r\nOK\r\n`, `esp_at_wifi_get_mac` returns
true and the 18-byte `mac` holds `m` followed by the CR: `mac[17]` is 13, not
NUL, and no byte of `mac` is NUL. -/
theorem get_mac_copies_cr :
    (bytes "00:11:22:33:44:55").length = 17 ∧
    outcome (esp_at_wifi_get_mac world0
      (byte_by_byte (bytes "+CIPSTAMAC:mac:00:11:22:33:44:55\r\n\r\nOK\r\n"))
      (List.replicate 18 88) (fun _ => 65)) =
      some (true, bytes "00:11:22:33:44:55" ++ [13]) ∧
    0 ∉ bytes "00:11:22:33:44:55" ++ [13] := by
  decide

/-! ## Reading the timestamp -/

theorem decimal_fuel_spec (fuel n : Nat) (h : n ≤ fuel) :
    (∀ d, d ∈ decimal_fuel fuel n → 48 ≤ d ∧ d ≤ 57) ∧
    digits_value 0 (decimal_fuel fuel n) = n ∧ decimal_fuel fuel n ≠ [] := by
  induction fuel generalizing n with
  | zero =>
    have h0 : n = 0 := Nat.le_zero.1 h
    subst h0
    simp [decimal_fuel, digits_value]
  | succ fuel ih =>
    unfold decimal_fuel
    by_cases hn : n < 10
    · rw [if_pos hn]
      refine ⟨?_, by simp [digits_value], by simp⟩
      intro d hd
      simp at hd
      omega
    · rw [if_neg hn]
      obtain ⟨h1, h2, _⟩ := ih (n / 10) (by omega)
      refine ⟨?_, ?_, by simp⟩
      · intro d hd
        rcases List.mem_append.1 hd with hd | hd
        · exact h1 d hd
        · simp at hd
          omega
      · unfold digits_value at h2 ⊢
        rw [List.foldl_append, h2]
        simp
        omega

theorem read_digits_run (src : Nat → Option Nat) (ds : List Nat) (stop fuel i acc : Nat)
    (hsrc : ∀ j, j ≤ ds.length → src (i + j) = some ((ds ++ [stop]).getD j 0))
    (hd : ∀ d, d ∈ ds → 48 ≤ d ∧ d ≤ 57) (hstop : ¬ (48 ≤ stop ∧ stop ≤ 57))
    (hfuel : ds.length < fuel) :
    read_digits src fuel i acc = some (digits_value acc ds) := by
  induction ds generalizing fuel i acc with
  | nil =>
    obtain ⟨f, rfl⟩ : ∃ f, fuel = f + 1 := ⟨fuel - 1, by simp at hfuel; omega⟩
    have h0 := hsrc 0 (Nat.zero_le _)
    simp only [Nat.add_zero] at h0
    rw [read_digits, h0]
    simp [hstop, digits_value]
  | cons x ds ih =>
    obtain ⟨f, rfl⟩ : ∃ f, fuel = f + 1 := ⟨fuel - 1, by simp at hfuel; omega⟩
    have h0 := hsrc 0 (Nat.zero_le _)
    simp only [Nat.add_zero] at h0
    have hx := hd x (by simp)
    have ih2 := ih f (i + 1) (acc * 10 + (x - 48))
      (fun j hj => by
        have := hsrc (j + 1) (by simp; omega)
        simpa [Nat.add_assoc, Nat.add_comm 1 j] using this)
      (fun d hdm => hd d (by simp [hdm])) (by simp at hfuel; omega)
    rw [read_digits, h0]
    simp only [List.cons_append, List.getD_cons_zero, Option.some_bind, if_pos hx, ih2]
    simp [digits_value]

theorem matchAt_mismatch (buf : Nat → Nat) (l m : List Nat) (k : Nat)
    (hk : k + m.length ≤ l.length) (hl : l.length ≤ RX_BUFFER_SIZE)
    (hno : ¬ m <+: l.drop k) :
    matchAt (bufOf buf l) k m = some false := by
  induction m generalizing k with
  | nil => exact absurd (List.nil_prefix) hno
  | cons c cs ih =>
    have hkl : k < l.length := by simp at hk; omega
    have hlt : k < RX_BUFFER_SIZE := by omega
    have hdrop : l.drop k = l.getD k 0 :: l.drop (k + 1) := by
      rw [List.getD_eq_getElem _ _ hkl]
      exact List.drop_eq_getElem_cons hkl
    rw [matchAt, if_pos hlt, bufOf_lt buf l k hkl]
    by_cases hc : l.getD k 0 = c
    · rw [if_pos hc]
      apply ih (k + 1) (by simp at hk ⊢; omega)
      intro hp
      apply hno
      rw [hdrop, hc]
      exact (List.cons_prefix_cons).2 ⟨rfl, hp⟩
    · rw [if_neg hc]

/-- The search finds the marker at `|pre|` when it stands there, stands at no
earlier offset, and no NUL byte comes before it. -/
theorem strstr_buf_first (buf : Nat → Nat) (pre m post : List Nat)
    (hl : (pre ++ m ++ post).length ≤ RX_BUFFER_SIZE)
    (hfirst : ∀ k, k < pre.length → ¬ m <+: (pre ++ m ++ post).drop k)
    (hnul : 0 ∉ pre) (seen rest : List Nat) (hpre : pre = seen ++ rest) (fuel : Nat)
    (hfuel : rest.length < fuel) :
    strstr_buf (bufOf buf (pre ++ m ++ post)) m fuel seen.length = some (Ptr.buf pre.length) := by
  induction rest generalizing seen fuel with
  | nil =>
    obtain ⟨f, rfl⟩ : ∃ f, fuel = f + 1 := ⟨fuel - 1, by simp at hfuel; omega⟩
    have hs : seen = pre := by simp [hpre]
    subst hs
    have hm := matchAt_bufOf buf seen m post (by simp at hl; omega)
    rw [strstr_buf, hm]
  | cons x rs ih =>
    obtain ⟨f, rfl⟩ : ∃ f, fuel = f + 1 := ⟨fuel - 1, by simp at hfuel; omega⟩
    have hlen : pre.length = seen.length + (rs.length + 1) := by simp [hpre]
    have hmis := matchAt_mismatch buf (pre ++ m ++ post) m seen.length
      (by simp; omega) hl (hfirst seen.length (by omega))
    have hx : bufOf buf (pre ++ m ++ post) seen.length = x := by
      have := bufOf_append_right buf seen (x :: rs ++ m ++ post) 0
      simpa [hpre] using this
    have hx0 : x ≠ 0 := fun h => hnul (by simp [hpre, h])
    have ih2 := ih (seen ++ [x]) (by simp [hpre]) f (by simp at hfuel; omega)
    rw [strstr_buf, hmis]
    simp only [hx, if_neg hx0]
    simpa using ih2

theorem rxdata_eq_bufOf (s : RxState) : s.rxdata = bufOf s.rxdata (captured s) := by
  funext i
  by_cases h : i < s.rxlen
  · simp [bufOf, captured, List.getD_eq_getElem?_getD, h]
  · have h2 : (captured s).length ≤ i := by simp [captured]; omega
    rw [bufOf_ge _ _ _ h2]

theorem store_int32 (n : Nat) (h : n < 2 ^ 32) :
    (to_int32 (n : Int) % (2 : Int) ^ 32).toNat = n := by
  have e : (2 : Int) ^ 32 = 4294967296 := by norm_num
  have h2 : n < 4294967296 := by
    have : (2 : Nat) ^ 32 = 4294967296 := by norm_num
    omega
  rw [e, to_int32]
  omega

theorem atoi_digits (src : Nat → Option Nat) (ds : List Nat)
    (hsrc : ∀ j, j ≤ ds.length → src j = some ((ds ++ [13]).getD j 0))
    (hd : ∀ d, d ∈ ds → 48 ≤ d ∧ d ≤ 57) (hne : ds ≠ [])
    (hlen : ds.length ≤ RX_BUFFER_SIZE) :
    atoi src = some (to_int32 (digits_value 0 ds : Nat)) := by
  cases ds with
  | nil => exact absurd rfl hne
  | cons d0 dt =>
    have h0 : src 0 = some d0 := by simpa using hsrc 0 (Nat.zero_le _)
    have hd0 := hd d0 (by simp)
    have hsp : is_space d0 = false := by
      simp only [is_space, decide_eq_false_iff_not]
      omega
    have h45 : ¬ d0 = 45 := by omega
    have h43 : ¬ d0 = 43 := by omega
    have hrun := read_digits_run src (d0 :: dt) 13 (RX_BUFFER_SIZE + 1) 0 0
      (fun j hj => by simpa using hsrc j hj) hd (by decide) (by omega)
    unfold atoi
    rw [skip_space, h0]
    simp only [Option.some_bind, hsp, Bool.false_eq_true, if_false, h0, h45, h43, or_self,
      hrun, Option.map_some', decide_False]

/-- C18 (amended): for every `n < 2^32`, when the transaction of
`esp_at_get_time` succeeds and the captured response holds no NUL before its
first `+SYSTIMESTAMP:`, and that first marker is followed by the decimal digits
of `n` and CR LF, `esp_at_get_time` returns true and stores exactly `n`; and
under every schedule for which the transaction fails it returns false and
leaves `*timestamp` as it was. -/
theorem get_time_stores (w : World) (sc : Schedule) (timestamp : Nat) (lowmem : Nat → Nat)
    (n : Nat) (pre rest : List Nat) (hn : n < 2 ^ 32)
    (hret : (esp_at_send_command w (bytes "AT+SYSTIMESTAMP?") 1000 sc).ret = true)
    (hcap : captured (esp_at_send_command w (bytes "AT+SYSTIMESTAMP?") 1000 sc).world.rx =
      pre ++ bytes "+SYSTIMESTAMP:" ++ (decimal n ++ 13 :: 10 :: rest))
    (hfirst : ∀ k, k < pre.length → ¬ bytes "+SYSTIMESTAMP:" <+:
      (pre ++ bytes "+SYSTIMESTAMP:" ++ (decimal n ++ 13 :: 10 :: rest)).drop k)
    (hnul : 0 ∉ pre) :
    esp_at_get_time w sc timestamp lowmem =
      some ((esp_at_send_command w (bytes "AT+SYSTIMESTAMP?") 1000 sc).world, true, n) ∧
    (∀ sc2, (esp_at_send_command w (bytes "AT+SYSTIMESTAMP?") 1000 sc2).ret = false →
      esp_at_get_time w sc2 timestamp lowmem =
        some ((esp_at_send_command w (bytes "AT+SYSTIMESTAMP?") 1000 sc2).world, false,
          timestamp)) := by
  constructor
  swap
  · intro sc2 hf
    simp [esp_at_get_time, hf]
  have hR : RX_BUFFER_SIZE = 4096 := rfl
  have h14 : (bytes "+SYSTIMESTAMP:").length = 14 := by decide
  obtain ⟨hdig, hval, hne⟩ := decimal_fuel_spec n n (le_refl n)
  have hrsp : (esp_at_send_command w (bytes "AT+SYSTIMESTAMP?") 1000 sc).rsp =
      (esp_at_send_command w (bytes "AT+SYSTIMESTAMP?") 1000 sc).world.rx.rxdata := rfl
  have hbuf := rxdata_eq_bufOf (esp_at_send_command w (bytes "AT+SYSTIMESTAMP?") 1000 sc).world.rx
  rw [hcap] at hbuf
  have hrxlen : (esp_at_send_command w (bytes "AT+SYSTIMESTAMP?") 1000 sc).world.rx.rxlen ≤
      RX_BUFFER_SIZE := by
    have : (esp_at_send_command w (bytes "AT+SYSTIMESTAMP?") 1000 sc).world.rx.rxlen =
        (poll_end w (bytes "AT+SYSTIMESTAMP?") 1000 sc).rx.rxlen := rfl
    rw [this, poll_end_rx]
    exact feed_rxlen_le _ _ (Nat.zero_le _)
  have hl : (pre ++ bytes "+SYSTIMESTAMP:" ++ (decimal n ++ 13 :: 10 :: rest)).length ≤
      RX_BUFFER_SIZE := by
    rw [← hcap]
    simpa [captured] using hrxlen
  have hl2 : pre.length + 14 + (decimal n).length + 2 ≤ 4096 := by
    simp only [List.length_append, List.length_cons, h14, hR] at hl
    omega
  have hs := strstr_buf_first (esp_at_send_command w (bytes "AT+SYSTIMESTAMP?") 1000 sc).world.rx.rxdata
    pre (bytes "+SYSTIMESTAMP:") (decimal n ++ 13 :: 10 :: rest) hl hfirst hnul [] pre rfl
    RX_BUFFER_SIZE (by omega)
  rw [← hbuf] at hs
  have hsrc : ∀ j, j ≤ (decimal n).length →
      load (esp_at_send_command w (bytes "AT+SYSTIMESTAMP?") 1000 sc).world.rx.rxdata lowmem
        ((Ptr.buf (pre.length + 14)).add j) = some ((decimal n ++ [13]).getD j 0) := by
    intro j hj
    have hb := bufOf_append_right
      (esp_at_send_command w (bytes "AT+SYSTIMESTAMP?") 1000 sc).world.rx.rxdata
      (pre ++ bytes "+SYSTIMESTAMP:") (decimal n ++ 13 :: 10 :: rest) j
    rw [← hbuf, getD_in_front (decimal n) (10 :: rest) 13 _ j hj] at hb
    have hlt : pre.length + 14 + j < RX_BUFFER_SIZE := by omega
    simp only [List.length_append, h14] at hb
    simp only [Ptr.add, load, rd, if_pos hlt]
    rw [hb]
  have hatoi := atoi_digits _ (decimal n) hsrc hdig hne (by omega)
  have hval2 : digits_value 0 (decimal n) = n := hval
  rw [hval2] at hatoi
  simp only [esp_at_get_time, hret, hrsp, Bool.not_true, Bool.false_eq_true, if_false]
  simp only [List.length_nil] at hs
  rw [hs]
  simp only [Option.some_bind, Ptr.add, h14]
  simp only [Ptr.add] at hatoi
  rw [hatoi]
  simp only [Option.map_some', store_int32 n hn]

set_option maxRecDepth 100000 in
theorem get_time_stores_witness :
    4294967295 < 2 ^ 32 ∧
    (esp_at_send_command world0 (bytes "AT+SYSTIMESTAMP?") 1000
      (byte_by_byte (bytes "AT+SYSTIMESTAMP?\r\n+SYSTIMESTAMP:4294967295\r\n\r\nOK\r\n"))).ret =
      true ∧
    captured (esp_at_send_command world0 (bytes "AT+SYSTIMESTAMP?") 1000
      (byte_by_byte (bytes "AT+SYSTIMESTAMP?\r\n+SYSTIMESTAMP:4294967295\r\n\r\nOK\r\n"))).world.rx =
      bytes "AT+SYSTIMESTAMP?\r\n" ++ bytes "+SYSTIMESTAMP:" ++
        (decimal 4294967295 ++ 13 :: 10 :: bytes "\r\nOK\r\n") ∧
    (∀ k, k < (bytes "AT+SYSTIMESTAMP?\r\n").length → ¬ bytes "+SYSTIMESTAMP:" <+:
      (bytes "AT+SYSTIMESTAMP?\r\n" ++ bytes "+SYSTIMESTAMP:" ++
        (decimal 4294967295 ++ 13 :: 10 :: bytes "\r\nOK\r\n")).drop k) ∧
    0 ∉ bytes "AT+SYSTIMESTAMP?\r\n" ∧
    esp_at_get_time world0
      (byte_by_byte (bytes "AT+SYSTIMESTAMP?\r\n+SYSTIMESTAMP:4294967295\r\n\r\nOK\r\n")) 7
      (fun _ => 65) =
      some ((esp_at_send_command world0 (bytes "AT+SYSTIMESTAMP?") 1000
        (byte_by_byte
          (bytes "AT+SYSTIMESTAMP?\r\n+SYSTIMESTAMP:4294967295\r\n\r\nOK\r\n"))).world,
        true, 4294967295) :=
  ⟨by decide, by decide, by decide, by decide, by decide,
    (get_time_stores world0
      (byte_by_byte (bytes "AT+SYSTIMESTAMP?\r\n+SYSTIMESTAMP:4294967295\r\n\r\nOK\r\n")) 7
      (fun _ => 65) 4294967295 (bytes "AT+SYSTIMESTAMP?\r\n") (bytes "\r\nOK\r\n")
      (by decide) (by decide) (by decide) (by decide) (by decide)).1⟩

set_option maxRecDepth 100000 in
/-- C18 (counterexample): the successful response
`+SYSTIMESTAMP:1\r\n+SYSTIMESTAMP:2\r\n\r\nOK\r\n` contains `+SYSTIMESTAMP:`
followed by the decimal digits of `n = 2` and CR LF, yet `esp_at_get_time`
returns true and stores 1: the digits behind the first occurrence of the
marker are the ones read. -/
theorem get_time_first_marker_counterexample :
    2 < 2 ^ 32 ∧
    (esp_at_send_command world0 (bytes "AT+SYSTIMESTAMP?") 1000
      (byte_by_byte (bytes "+SYSTIMESTAMP:1\r\n+SYSTIMESTAMP:2\r\n\r\nOK\r\n"))).ret = true ∧
    bytes "+SYSTIMESTAMP:" ++ decimal 2 ++ [13, 10] <:+:
      captured (esp_at_send_command world0 (bytes "AT+SYSTIMESTAMP?") 1000
        (byte_by_byte (bytes "+SYSTIMESTAMP:1\r\n+SYSTIMESTAMP:2\r\n\r\nOK\r\n"))).world.rx ∧
    outcome (esp_at_get_time world0
      (byte_by_byte (bytes "+SYSTIMESTAMP:1\r\n+SYSTIMESTAMP:2\r\n\r\nOK\r\n")) 7
      (fun _ => 65)) = some (true, 1) ∧
    outcome (esp_at_get_time world0
      (byte_by_byte (bytes "+SYSTIMESTAMP:1\r\n+SYSTIMESTAMP:2\r\n\r\nOK\r\n")) 7
      (fun _ => 65)) ≠ some (true, 2) := by
  decide

/-! ## Joining a network -/

theorem cwjap_fits (ssid pwd : List Nat) (h : ssid.length + pwd.length ≤ 49) :
    snprintf 64 (cwjap ssid pwd) = cwjap ssid pwd := by
  have h10 : (bytes "AT+CWJAP=\"").length = 10 := by decide
  have h3 : (bytes "\",\"").length = 3 := by decide
  have h1 : (bytes "\"").length = 1 := by decide
  apply List.take_of_length_le
  simp only [cwjap, List.length_append, h10, h3, h1]
  omega

/-- C19 (amended): for every ssid and password with
`|ssid| + |password| <= 49`, `esp_at_wifi_connect` writes exactly the bytes
`AT+CWJAP="<ssid>","<password>"` and then CR LF, polls with a budget of 10000
ticks, and returns the success of the transaction unchanged. -/
theorem wifi_connect_writes (w : World) (ssid pwd : List Nat) (sc : Schedule)
    (h : ssid.length + pwd.length ≤ 49) :
    (esp_at_wifi_connect w ssid pwd sc).2 = txn_ok 10000 sc ∧
    ∃ n, n ≤ 10000 ∧
      (esp_at_wifi_connect w ssid pwd sc).1.log =
        w.log ++ [Event.write (bytes "AT+CWJAP=\"" ++ ssid ++ bytes "\",\"" ++ pwd ++ bytes "\""),
          Event.write [13, 10]] ++ List.replicate n (Event.delay 1) := by
  have hfit := cwjap_fits ssid pwd h
  have e := send_ret_eq w (cwjap ssid pwd) 10000 sc
  obtain ⟨n, hn, hlog⟩ := send_world_log w (cwjap ssid pwd) 10000 sc
  simp only [esp_at_wifi_connect, hfit, e]
  constructor
  · cases txn_ok 10000 sc <;> rfl
  · refine ⟨n, hn, ?_⟩
    have hl2 : w.log ++ txn_log (cwjap ssid pwd) n =
        w.log ++ [Event.write (bytes "AT+CWJAP=\"" ++ ssid ++ bytes "\",\"" ++ pwd ++ bytes "\""),
          Event.write [13, 10]] ++ List.replicate n (Event.delay 1) := by
      simp [txn_log, cwjap]
    cases txn_ok 10000 sc
    · simp only [Bool.not_false, if_true]; rw [hlog, hl2]
    · simp only [Bool.not_true, Bool.false_eq_true, if_false]; rw [hlog, hl2]

theorem wifi_connect_writes_witness :
    (bytes "home").length + (bytes "secret12").length ≤ 49 ∧
    (esp_at_wifi_connect world0 (bytes "home") (bytes "secret12")
      { during_write := okLine, ticks := [] }).2 =
      txn_ok 10000 { during_write := okLine, ticks := [] } ∧
    ∃ n, n ≤ 10000 ∧
      (esp_at_wifi_connect world0 (bytes "home") (bytes "secret12")
        { during_write := okLine, ticks := [] }).1.log =
        world0.log ++
          [Event.write (bytes "AT+CWJAP=\"" ++ bytes "home" ++ bytes "\",\"" ++ bytes "secret12" ++
            bytes "\""),
            Event.write [13, 10]] ++ List.replicate n (Event.delay 1) :=
  ⟨by decide,
    wifi_connect_writes world0 (bytes "home") (bytes "secret12")
      { during_write := okLine, ticks := [] } (by decide)⟩

set_option maxRecDepth 100000 in
/-- C19 (counterexample): with a 32-byte ssid and a 20-byte password the
formatted command has 66 bytes, `cmd[64]` keeps 63 of them, and what is written
is not `AT+CWJAP="<ssid>","<password>"`: the end of the password and the
closing quote are missing. -/
theorem wifi_connect_truncates_counterexample :
    (cwjap (List.replicate 32 97) (List.replicate 20 98)).length = 66 ∧
    written (esp_at_wifi_connect world0 (List.replicate 32 97) (List.replicate 20 98)
      { during_write := okLine, ticks := [] }).1.log =
      [(cwjap (List.replicate 32 97) (List.replicate 20 98)).take 63, [13, 10]] ∧
    (cwjap (List.replicate 32 97) (List.replicate 20 98)).take 63 ≠
      cwjap (List.replicate 32 97) (List.replicate 20 98) := by
  decide

/-! ## The polling loop -/

theorem poll_end_eq (w : World) (cmd : List Nat) (timeout : Nat) (sc : Schedule) :
    poll_end w cmd timeout sc = (wait_loop (poll_start w cmd sc) timeout sc.ticks).1 := rfl

theorem min_ticks_succ (t : Nat) (k : Option Nat) :
    min_ticks (t + 1) (k.map (fun k => k + 1)) = min_ticks t k + 1 := by
  cases k with
  | none => rfl
  | some k =>
    show min (t + 1) (k + 1) = min t k + 1
    omega

theorem min_ticks_le (t : Nat) (k : Option Nat) : min_ticks t k ≤ t := by
  cases k with
  | none => exact le_refl t
  | some k => exact Nat.min_le_left t k

theorem disarm_tick_idle (s : RxState) (ticks : List (List Nat)) (h : s.rxready = false) :
    disarm_tick s ticks = some 0 := by
  cases ticks <;> simp [disarm_tick, h]

theorem wait_loop_ticks (w : World) (t : Nat) (ticks : List (List Nat)) :
    (wait_loop w t ticks).1.log =
      w.log ++ List.replicate (min_ticks t (disarm_tick w.rx ticks)) (Event.delay 1) := by
  induction t generalizing w ticks with
  | zero =>
    have : min_ticks 0 (disarm_tick w.rx ticks) = 0 := Nat.le_zero.1 (min_ticks_le 0 _)
    simp [wait_loop, this]
  | succ t ih =>
    unfold wait_loop
    by_cases hr : w.rx.rxready = true
    · rw [if_pos hr, ih]
      cases ticks with
      | nil =>
        have h1 : disarm_tick w.rx [] = none := by simp [disarm_tick, hr]
        have h2 : (delay_ms w 1 []).rx = w.rx := rfl
        simp only [List.headD_nil, List.tail_nil]
        rw [h2, h1]
        simp [min_ticks, delay_ms, List.replicate_succ]
      | cons hd tl =>
        have h1 : disarm_tick w.rx (hd :: tl) =
            (disarm_tick (feed w.rx hd) tl).map (fun k => k + 1) := by
          simp [disarm_tick, hr]
        rw [h1, min_ticks_succ]
        simp [delay_ms, List.replicate_succ]
    · have hr2 : w.rx.rxready = false := by simpa using hr
      rw [if_neg hr, disarm_tick_idle _ _ hr2]
      simp [min_ticks]

theorem wait_loop_budget (w : World) (t : Nat) (ticks : List (List Nat)) :
    (wait_loop w t ticks).2 =
      if (wait_loop w t ticks).1.rx.rxready then 2 ^ 32 - 1
      else t - min_ticks t (disarm_tick w.rx ticks) := by
  induction t generalizing w ticks with
  | zero =>
    simp [wait_loop]
  | succ t ih =>
    unfold wait_loop
    by_cases hr : w.rx.rxready = true
    · rw [if_pos hr, ih]
      cases ticks with
      | nil =>
        have h1 : disarm_tick w.rx [] = none := by simp [disarm_tick, hr]
        have h2 : (delay_ms w 1 []).rx = w.rx := rfl
        simp only [List.headD_nil, List.tail_nil]
        rw [h2, h1]
        simp [min_ticks]
      | cons hd tl =>
        have h1 : disarm_tick w.rx (hd :: tl) =
            (disarm_tick (feed w.rx hd) tl).map (fun k => k + 1) := by
          simp [disarm_tick, hr]
        rw [h1, min_ticks_succ]
        simp [delay_ms]
    · have hr2 : w.rx.rxready = false := by simpa using hr
      rw [if_neg hr, disarm_tick_idle _ _ hr2]
      simp [min_ticks, hr2]

/-- The value `disarm_tick` is the least number of ticks after which the
machine is disarmed, and `none` when it stays armed. -/
theorem disarm_tick_least (s : RxState) (ticks : List (List Nat)) :
    (∀ k, disarm_tick s ticks = some k →
      (feed s (ticks.take k).flatten).rxready = false ∧
      ∀ j, j < k → (feed s (ticks.take j).flatten).rxready = true) ∧
    (disarm_tick s ticks = none →
      ∀ j, (feed s (ticks.take j).flatten).rxready = true) := by
  induction ticks generalizing s with
  | nil =>
    by_cases hr : s.rxready = true
    · simp [disarm_tick, hr, feed_nil]
    · have hr2 : s.rxready = false := by simpa using hr
      simp [disarm_tick, hr2, feed_nil]
  | cons hd tl ih =>
    by_cases hr : s.rxready = true
    · obtain ⟨ih1, ih2⟩ := ih (feed s hd)
      constructor
      · intro k hk
        simp only [disarm_tick, hr, if_true] at hk
        cases hd2 : disarm_tick (feed s hd) tl with
        | none => simp [hd2] at hk
        | some k2 =>
          simp [hd2] at hk
          subst hk
          obtain ⟨h1, h2⟩ := ih1 k2 hd2
          refine ⟨by simpa [feed_append] using h1, ?_⟩
          intro j hj
          cases j with
          | zero => simpa [feed_nil] using hr
          | succ j => simpa [feed_append] using h2 j (by omega)
      · intro hnone j
        simp only [disarm_tick, hr, if_true] at hnone
        have hd2 : disarm_tick (feed s hd) tl = none := by
          cases hd3 : disarm_tick (feed s hd) tl with
          | none => rfl
          | some k2 => simp [hd3] at hnone
        cases j with
        | zero => simpa [feed_nil] using hr
        | succ j => simpa [feed_append] using ih2 hd2 j
    · have hr2 : s.rxready = false := by simpa using hr
      simp [disarm_tick, hr2, feed_nil]

theorem tick_count_txn (cmd : List Nat) (n : Nat) : tick_count (txn_log cmd n) = n := by
  simp [tick_count, txn_log, List.count_cons]

/-- C20: for every timeout `t` and every schedule the polling loop of
`esp_at_send_command` ends, having performed exactly `min(t, k)` ticks of one
millisecond, where `k` is the least number of ticks after which `rxready` is
false (infinite when it never is); the post-decrement of the budget at zero
leaves the variable at `2^32 - 1` and causes no further tick. -/
theorem polling_tick_count (w : World) (cmd : List Nat) (t : Nat) (sc : Schedule) :
    (poll_end w cmd t sc).log =
      w.log ++ txn_log cmd (min_ticks t (disarm_tick (poll_start w cmd sc).rx sc.ticks)) ∧
    tick_count (esp_at_send_command w cmd t sc).world.log =
      tick_count w.log + min_ticks t (disarm_tick (poll_start w cmd sc).rx sc.ticks) ∧
    min_ticks t (disarm_tick (poll_start w cmd sc).rx sc.ticks) ≤ t ∧
    (∀ k, disarm_tick (poll_start w cmd sc).rx sc.ticks = some k →
      (feed (poll_start w cmd sc).rx (sc.ticks.take k).flatten).rxready = false ∧
      ∀ j, j < k → (feed (poll_start w cmd sc).rx (sc.ticks.take j).flatten).rxready = true) ∧
    (disarm_tick (poll_start w cmd sc).rx sc.ticks = none →
      ∀ j, (feed (poll_start w cmd sc).rx (sc.ticks.take j).flatten).rxready = true) ∧
    (wait_loop (poll_start w cmd sc) t sc.ticks).2 =
      (if (poll_end w cmd t sc).rx.rxready then 2 ^ 32 - 1
       else t - min_ticks t (disarm_tick (poll_start w cmd sc).rx sc.ticks)) := by
  have hlog : (poll_end w cmd t sc).log =
      w.log ++ txn_log cmd (min_ticks t (disarm_tick (poll_start w cmd sc).rx sc.ticks)) := by
    rw [poll_end_eq, wait_loop_ticks]
    simp [poll_start, txn_log]
  refine ⟨hlog, ?_, min_ticks_le _ _, (disarm_tick_least _ _).1, (disarm_tick_least _ _).2, ?_⟩
  · have : (esp_at_send_command w cmd t sc).world.log = (poll_end w cmd t sc).log := rfl
    rw [this, hlog, tick_count, List.count_append]
    exact congrArg _ (tick_count_txn cmd _)
  · rw [poll_end_eq]; exact wait_loop_budget _ _ _

/-! ## The HTTP GET command -/

theorem get_http_log (w : World) (url : List Nat) (timeout : Nat) (sc : Schedule) :
    (esp_at_get_http w url timeout sc).world.log =
      w.log ++ txn_log (snprintf 128 (bytes "AT+HTTPCGET=\"" ++ url ++ bytes "\""))
        (min_ticks 10000
          (disarm_tick
            (poll_start w (snprintf 128 (bytes "AT+HTTPCGET=\"" ++ url ++ bytes "\"")) sc).rx
            sc.ticks)) := by
  have hw : (esp_at_get_http w url timeout sc).world.log =
      (poll_end w (snprintf 128 (bytes "AT+HTTPCGET=\"" ++ url ++ bytes "\"")) 10000 sc).log := by
    simp only [esp_at_get_http]
    split_ifs <;> rfl
  rw [hw, poll_end_eq, wait_loop_ticks]
  simp [poll_start, txn_log]

theorem txn_ok_silent (t : Nat) (sc : Schedule) (h : silent sc) : txn_ok t sc = false := by
  simp [txn_ok, esp_at_send_command, poll_end_rx, window_silent t sc h, feed_nil, fresh,
    RX_RESULT_FAIL, RX_RESULT_OK]

theorem get_http_ret (w : World) (url : List Nat) (timeout : Nat) (sc : Schedule) :
    (esp_at_get_http w url timeout sc).ret = txn_ok 10000 sc := by
  have e := send_ret_eq w (snprintf 128 (bytes "AT+HTTPCGET=\"" ++ url ++ bytes "\"")) 10000 sc
  simp only [esp_at_get_http, e]
  cases txn_ok 10000 sc <;> rfl

/-- C21 (the code at the failing input): called with `timeout = 5` and no byte
delivered, `esp_at_get_http` returns false after 10000 polling ticks, not
after 5: the transaction is issued with the constant 10000 and the parameter
`timeout` is not used. -/
theorem get_http_ignores_timeout :
    silent { during_write := [], ticks := [] } ∧
    (esp_at_get_http world0 (bytes "http://example.com/") 5
      { during_write := [], ticks := [] }).ret = false ∧
    tick_count (esp_at_get_http world0 (bytes "http://example.com/") 5
      { during_write := [], ticks := [] }).world.log = 10000 ∧
    (∀ w url t1 t2 sc, (esp_at_get_http w url t1 sc).world.log =
      (esp_at_get_http w url t2 sc).world.log) := by
  refine ⟨by decide, ?_, ?_, ?_⟩
  · rw [get_http_ret]; exact txn_ok_silent _ _ (by decide)
  · rw [get_http_log, tick_count, List.count_append]
    have h1 := tick_count_txn
      (snprintf 128 (bytes "AT+HTTPCGET=\"" ++ bytes "http://example.com/" ++ bytes "\""))
      (min_ticks 10000
        (disarm_tick
          (poll_start world0
            (snprintf 128 (bytes "AT+HTTPCGET=\"" ++ bytes "http://example.com/" ++ bytes "\""))
            { during_write := [], ticks := [] }).rx
          ({ during_write := [], ticks := [] } : Schedule).ticks))
    rw [tick_count] at h1
    rw [h1]
    rfl
  · intro w url t1 t2 sc
    rw [get_http_log, get_http_log]

/-! ## Bytes left in the buffer by earlier transactions -/

set_option maxRecDepth 100000 in
/-- C22 (the code at the failing input): two runs call `esp_at_wifi_get_ip`
twice. The second transaction receives the same bytes `\r\nOK\r\n` in both
runs, succeeds, and captures the same six bytes; the runs differ only in the
response of the first transaction, whose bytes from index 6 on are still in
the buffer. The buffer is searched as a C string, past `rxlen`, so the second
call finds the marker left at index 12 by the first and the outputs differ:
`10.0.0.1` in one run, `10.0.0.2` in the other. -/
theorem get_ip_reads_stale_bytes :
    (get_ip_twice (bytes "AT+CIPSTA?\r\n+CIPSTA:ip:10.0.0.1\r\n\r\nOK\r\n") (bytes "\r\nOK\r\n")
      (List.replicate 16 88) (fun _ => 65)).map
      (fun r => (r.1.rx.rxresult, r.1.rx.rxlen, captured r.1.rx)) =
      some (RX_RESULT_OK, 6, bytes "\r\nOK\r\n") ∧
    (get_ip_twice (bytes "AT+CIPSTA?\r\n+CIPSTA:ip:10.0.0.2\r\n\r\nOK\r\n") (bytes "\r\nOK\r\n")
      (List.replicate 16 88) (fun _ => 65)).map
      (fun r => (r.1.rx.rxresult, r.1.rx.rxlen, captured r.1.rx)) =
      some (RX_RESULT_OK, 6, bytes "\r\nOK\r\n") ∧
    (¬ bytes "+CIPSTA:ip:" <:+: bytes "\r\nOK\r\n") ∧
    outcome (get_ip_twice (bytes "AT+CIPSTA?\r\n+CIPSTA:ip:10.0.0.1\r\n\r\nOK\r\n")
      (bytes "\r\nOK\r\n") (List.replicate 16 88) (fun _ => 65)) =
      some (true, bytes "10.0.0.1" ++ 0 :: List.replicate 7 88) ∧
    outcome (get_ip_twice (bytes "AT+CIPSTA?\r\n+CIPSTA:ip:10.0.0.2\r\n\r\nOK\r\n")
      (bytes "\r\nOK\r\n") (List.replicate 16 88) (fun _ => 65)) =
      some (true, bytes "10.0.0.2" ++ 0 :: List.replicate 7 88) := by
  decide

end EspAt

namespace Weather

/-! ## The field extraction of `weather_parse` -/

/-- The search `strstr` returns the offset `|pre|` when the needle stands right after
`pre` and at no earlier offset. -/
theorem strstr_first (pre m rest : List Nat)
    (hfirst : ∀ k, k < pre.length → ¬ m <+: (pre ++ m ++ rest).drop k) :
    strstr (pre ++ m ++ rest) m = some pre.length := by
  induction pre with
  | nil =>
    cases hm : m ++ rest with
    | nil =>
      obtain ⟨hm1, hm2⟩ := List.append_eq_nil.1 hm
      subst hm1 hm2
      simp [strstr]
    | cons a t =>
      have hp : m.isPrefixOf (a :: t) = true := by
        rw [List.isPrefixOf_iff_prefix, ← hm]; exact List.prefix_append m rest
      simp [hm, strstr, hp]
  | cons a pre ih =>
    have h0 := hfirst 0 (by simp)
    have hp : m.isPrefixOf (a :: (pre ++ m ++ rest)) = false := by
      rw [Bool.eq_false_iff]
      intro h
      rw [List.isPrefixOf_iff_prefix] at h
      exact h0 (by simpa using h)
    have ih2 := ih (fun k hk => by
      have := hfirst (k + 1) (by simp; omega)
      simpa using this)
    have e : a :: pre ++ m ++ rest = a :: (pre ++ m ++ rest) := by simp
    rw [e, strstr, hp, ih2]
    simp

theorem strchr_first (v rest : List Nat) (c : Nat) (hv : c ∉ v) :
    strchr (v ++ c :: rest) c = some v.length := by
  induction v with
  | nil => simp [strchr]
  | cons a v ih =>
    have ha : a ≠ c := fun h => hv (by simp [h])
    have hv2 : c ∉ v := fun h => hv (by simp [h])
    simp [strchr, ha, ih hv2]

theorem set_after (v tl : List Nat) (x y : Nat) :
    (v ++ x :: tl).set v.length y = v ++ y :: tl := by
  induction v with
  | nil => rfl
  | cons a v ih => simp [ih]

/-- Copying the `|v|` bytes before the delimiter into a larger array and
terminating them. -/
theorem copy_field (dest v rest : List Nat) (hlen : v.length < dest.length) :
    (strncpy dest (v ++ 34 :: rest) v.length).set v.length 0 =
      v ++ 0 :: dest.drop (v.length + 1) := by
  have h1 : (v ++ 34 :: rest).take v.length = v := by simp
  have h2 : v.length - (v ++ 34 :: rest).length = 0 := by simp
  have h3 : dest.drop v.length = dest.get ⟨v.length, hlen⟩ :: dest.drop (v.length + 1) := by
    simp
  rw [strncpy, h1, h2, List.replicate_zero, List.append_nil, h3]
  exact set_after v _ _ 0

/-- C10: for every input in which the first occurrence of `"text":"` is
followed by `v` and a double quote, and the first occurrence of
`"temperature":"` is followed by `t` and a double quote, with no double quote
in `v` or `t`, `|v| < sizeof(weather->weather)` and
`|t| < sizeof(weather->temperature)`: `weather_parse` returns true, and the two
arrays hold `v` and `t`, each followed by a NUL, the bytes behind the NUL
being left as they were. -/
theorem weather_parse_extracts (w : weather_t)
    (pre1 v rest1 pre2 t rest2 data : List Nat)
    (hd1 : data = pre1 ++ textMarker ++ (v ++ 34 :: rest1))
    (hf1 : ∀ k, k < pre1.length → ¬ textMarker <+: data.drop k)
    (hd2 : data = pre2 ++ temperatureMarker ++ (t ++ 34 :: rest2))
    (hf2 : ∀ k, k < pre2.length → ¬ temperatureMarker <+: data.drop k)
    (hv : 34 ∉ v) (ht : 34 ∉ t)
    (hvl : v.length < w.weather.length) (htl : t.length < w.temperature.length) :
    (weather_parse data w).1 = true ∧
    (weather_parse data w).2.weather = v ++ 0 :: w.weather.drop (v.length + 1) ∧
    (weather_parse data w).2.temperature = t ++ 0 :: w.temperature.drop (t.length + 1) := by
  have s1 : strstr data textMarker = some pre1.length := by
    rw [hd1] at hf1 ⊢; exact strstr_first pre1 textMarker _ hf1
  have s2 : strstr data temperatureMarker = some pre2.length := by
    rw [hd2] at hf2 ⊢; exact strstr_first pre2 temperatureMarker _ hf2
  have p1 : data.drop (pre1.length + textMarker.length) = v ++ 34 :: rest1 := by
    rw [hd1, ← List.length_append, List.drop_left]
  have p2 : data.drop (pre2.length + temperatureMarker.length) = t ++ 34 :: rest2 := by
    rw [hd2, ← List.length_append, List.drop_left]
  have c1 := strchr_first v rest1 34 hv
  have c2 := strchr_first t rest2 34 ht
  have g1 : ¬ v.length ≥ w.weather.length := by omega
  have g2 : ¬ t.length ≥ w.temperature.length := by omega
  simp only [weather_parse, s1, s2, p1, p2, c1, c2, g1, g2, if_false, copy_field _ _ _ hvl,
    copy_field _ _ _ htl, and_self]


set_option maxRecDepth 100000 in
theorem weather_parse_extracts_witness :
    examplePayload = examplePayload.take 184 ++ textMarker ++
      (EspAt.bytes "Cloudy" ++ 34 :: examplePayload.drop 199) ∧
    examplePayload = examplePayload.take 211 ++ temperatureMarker ++
      (EspAt.bytes "36" ++ 34 :: examplePayload.drop 229) ∧
    (weather_parse examplePayload
      { weather := List.replicate 16 88, temperature := List.replicate 8 88 }).1 = true ∧
    (weather_parse examplePayload
      { weather := List.replicate 16 88, temperature := List.replicate 8 88 }).2.weather =
      EspAt.bytes "Cloudy" ++ 0 :: (List.replicate 16 88).drop ((EspAt.bytes "Cloudy").length + 1) ∧
    (weather_parse examplePayload
      { weather := List.replicate 16 88, temperature := List.replicate 8 88 }).2.temperature =
      EspAt.bytes "36" ++ 0 :: (List.replicate 8 88).drop ((EspAt.bytes "36").length + 1) :=
  ⟨by decide, by decide,
    weather_parse_extracts { weather := List.replicate 16 88, temperature := List.replicate 8 88 }
      (examplePayload.take 184) (EspAt.bytes "Cloudy") (examplePayload.drop 199)
      (examplePayload.take 211) (EspAt.bytes "36") (examplePayload.drop 229) examplePayload
      (by decide) (by decide) (by decide) (by decide) (by decide) (by decide)
      (by decide) (by decide)⟩

/-! ## What `strstr` and `strchr` return -/

theorem strstr_some (data m : List Nat) (i : Nat) (h : strstr data m = some i) :
    i ≤ data.length ∧ m <+: data.drop i ∧ ∀ k, k < i → ¬ m <+: data.drop k := by
  induction data generalizing i with
  | nil =>
    simp only [strstr] at h
    split_ifs at h with hm
    · cases h; subst hm; simp
  | cons a t ih =>
    simp only [strstr] at h
    split_ifs at h with hp
    · cases h
      rw [List.isPrefixOf_iff_prefix] at hp
      exact ⟨Nat.zero_le _, by simpa using hp, fun k hk => absurd hk (Nat.not_lt_zero k)⟩
    · cases hj : strstr t m with
      | none => simp [hj] at h
      | some j =>
        simp [hj] at h
        subst h
        obtain ⟨h1, h2, h3⟩ := ih j hj
        refine ⟨by simp; omega, by simpa using h2, ?_⟩
        intro k hk
        cases k with
        | zero =>
          intro hpre
          apply hp
          rw [List.isPrefixOf_iff_prefix]
          simpa using hpre
        | succ k => simpa using h3 k (by omega)

theorem strstr_none (data m : List Nat) (h : strstr data m = none) :
    ∀ k, k ≤ data.length → ¬ m <+: data.drop k := by
  induction data with
  | nil =>
    simp only [strstr] at h
    split_ifs at h with hm
    intro k _ hpre
    simp at hpre
    exact hm hpre
  | cons a t ih =>
    simp only [strstr] at h
    split_ifs at h with hp
    have ht : strstr t m = none := by
      cases hj : strstr t m with
      | none => rfl
      | some j => simp [hj] at h
    intro k hk
    cases k with
    | zero =>
      intro hpre
      apply hp
      rw [List.isPrefixOf_iff_prefix]
      simpa using hpre
    | succ k => simpa using ih ht k (by simpa using hk)

theorem strchr_none_iff (s : List Nat) (c : Nat) : strchr s c = none ↔ c ∉ s := by
  induction s with
  | nil => simp [strchr]
  | cons a t ih =>
    by_cases ha : a = c
    · simp [strchr, ha]
    · have hc : ¬ c = a := fun h => ha h.symm
      simp [strchr, ha, hc, ih]

theorem strchr_some (s : List Nat) (c q : Nat) (h : strchr s c = some q) :
    ∃ v rest, s = v ++ c :: rest ∧ c ∉ v ∧ v.length = q := by
  induction s generalizing q with
  | nil => simp [strchr] at h
  | cons a t ih =>
    simp only [strchr] at h
    split_ifs at h with ha
    · cases h
      exact ⟨[], t, by simp [ha], by simp, rfl⟩
    · cases hj : strchr t c with
      | none => simp [hj] at h
      | some j =>
        simp [hj] at h
        obtain ⟨v, rest, hs, hv, hl⟩ := ih j hj
        refine ⟨a :: v, rest, by simp [hs], ?_, by simp [hl, h]⟩
        intro hm
        rcases List.mem_cons.1 hm with h1 | h1
        · exact ha h1.symm
        · exact hv h1

/-- The field after `marker` is found exactly when `strstr` finds the marker
and `strchr` finds a double quote behind it. -/
theorem field_found_iff (data m : List Nat) :
    field_found data m ↔
      ∃ i q, strstr data m = some i ∧ strchr (data.drop (i + m.length)) 34 = some q := by
  constructor
  · rintro ⟨pre, rest, hd, hf, hq⟩
    have hs : strstr data m = some pre.length := by
      rw [hd] at hf ⊢; exact strstr_first pre m rest hf
    have hdrop : data.drop (pre.length + m.length) = rest := by
      rw [hd, ← List.length_append, List.drop_left]
    cases hc : strchr rest 34 with
    | none => exact absurd hq ((strchr_none_iff rest 34).1 hc)
    | some q => exact ⟨pre.length, q, hs, by rw [hdrop]; exact hc⟩
  · rintro ⟨i, q, hs, hc⟩
    obtain ⟨hi, ⟨rest, hrest⟩, hfirst⟩ := strstr_some data m i hs
    have hd : data = data.take i ++ m ++ rest := by
      rw [List.append_assoc, hrest, List.take_append_drop]
    have hlen : (data.take i).length = i := by simp [hi]
    have hdrop : data.drop (i + m.length) = rest := by
      have e : data.drop (i + m.length) = (data.drop i).drop m.length := by
        rw [List.drop_drop]
      rw [e, ← hrest, List.drop_left]
    refine ⟨data.take i, rest, hd, by rw [hlen]; exact hfirst, ?_⟩
    rw [hdrop] at hc
    by_contra hno
    rw [(strchr_none_iff rest 34).2 hno] at hc
    cases hc

theorem weather_parse_true_iff (data : List Nat) (w : weather_t) :
    (weather_parse data w).1 = true ↔
      (∃ i q, strstr data textMarker = some i ∧
        strchr (data.drop (i + textMarker.length)) 34 = some q) ∧
      (∃ j q, strstr data temperatureMarker = some j ∧
        strchr (data.drop (j + temperatureMarker.length)) 34 = some q) := by
  cases h1 : strstr data textMarker with
  | none => simp [weather_parse, h1]
  | some i =>
    cases h2 : strchr (data.drop (i + textMarker.length)) 34 with
    | none => simp [weather_parse, h1, h2]
    | some q =>
      cases h3 : strstr data temperatureMarker with
      | none => simp [weather_parse, h1, h2, h3]
      | some j =>
        cases h4 : strchr (data.drop (j + temperatureMarker.length)) 34 with
        | none => simp [weather_parse, h1, h2, h3, h4]
        | some q2 => simp [weather_parse, h1, h2, h3, h4]

/-- C13: for every input, `weather_parse` returns true exactly when the input
contains `"text":"` with a double quote somewhere after the end of its first
occurrence and contains `"temperature":"` with a double quote somewhere after
the end of its first occurrence; a marker whose value has no closing quote
before the end of the input gives false. -/
theorem weather_parse_true_exactly (data : List Nat) (w : weather_t) :
    ((weather_parse data w).1 = true ↔
      field_found data textMarker ∧ field_found data temperatureMarker) ∧
    (∀ pre rest, data = pre ++ textMarker ++ rest →
      (∀ k, k < pre.length → ¬ textMarker <+: data.drop k) → 34 ∉ rest →
      (weather_parse data w).1 = false) ∧
    (∀ pre rest, data = pre ++ temperatureMarker ++ rest →
      (∀ k, k < pre.length → ¬ temperatureMarker <+: data.drop k) → 34 ∉ rest →
      (weather_parse data w).1 = false) := by
  have key : (weather_parse data w).1 = true ↔
      field_found data textMarker ∧ field_found data temperatureMarker := by
    rw [weather_parse_true_iff, field_found_iff, field_found_iff]
  have unclosed : ∀ (m pre rest : List Nat), data = pre ++ m ++ rest →
      (∀ k, k < pre.length → ¬ m <+: data.drop k) → 34 ∉ rest → ¬ field_found data m := by
    intro m pre rest hd hf hq hfound
    obtain ⟨i, q, hs, hc⟩ := (field_found_iff data m).1 hfound
    have hs2 : strstr data m = some pre.length := by
      rw [hd] at hf ⊢; exact strstr_first pre m rest hf
    rw [hs2] at hs
    cases hs
    have hdrop : data.drop (pre.length + m.length) = rest := by
      rw [hd, ← List.length_append, List.drop_left]
    rw [hdrop, (strchr_none_iff rest 34).2 hq] at hc
    cases hc
  refine ⟨key, ?_, ?_⟩
  · intro pre rest hd hf hq
    rw [Bool.eq_false_iff]
    intro ht
    exact unclosed _ pre rest hd hf hq (key.1 ht).1
  · intro pre rest hd hf hq
    rw [Bool.eq_false_iff]
    intro ht
    exact unclosed _ pre rest hd hf hq (key.1 ht).2

theorem copy_field_truncated (dest v rest : List Nat) (hN : 1 ≤ dest.length)
    (hlen : dest.length ≤ v.length) :
    (strncpy dest (v ++ 34 :: rest) (dest.length - 1)).set (dest.length - 1) 0 =
      v.take (dest.length - 1) ++ [0] := by
  have h1 : (v ++ 34 :: rest).take (dest.length - 1) = v.take (dest.length - 1) :=
    List.take_append_of_le_length (by omega)
  have h2 : dest.length - 1 - (v ++ 34 :: rest).length = 0 := by simp; omega
  have h3 : (v.take (dest.length - 1)).length = dest.length - 1 := by
    rw [List.length_take]; omega
  have h4 : (dest.drop (dest.length - 1)).length = 1 := by
    rw [List.length_drop]; omega
  obtain ⟨d, hd⟩ := List.length_eq_one.1 h4
  rw [strncpy, h1, h2, List.replicate_zero, List.append_nil, hd]
  have := set_after (v.take (dest.length - 1)) [] d 0
  rwa [h3] at this

/-- C11: when the text field is found, for every capacity `N >= 1` of
`weather->weather` and value `v` with `|v| >= N` the array afterwards is the
first `N - 1` bytes of `v` followed by NUL, `N` bytes in all; and likewise for
`weather->temperature` with its own capacity and value `t`. -/
theorem weather_parse_truncates (w : weather_t) (pre1 v rest1 data : List Nat)
    (hd1 : data = pre1 ++ textMarker ++ (v ++ 34 :: rest1))
    (hf1 : ∀ k, k < pre1.length → ¬ textMarker <+: data.drop k)
    (hv : 34 ∉ v) :
    (1 ≤ w.weather.length → w.weather.length ≤ v.length →
      (weather_parse data w).2.weather = v.take (w.weather.length - 1) ++ [0] ∧
      (weather_parse data w).2.weather.length = w.weather.length) ∧
    (∀ pre2 t rest2, data = pre2 ++ temperatureMarker ++ (t ++ 34 :: rest2) →
      (∀ k, k < pre2.length → ¬ temperatureMarker <+: data.drop k) → 34 ∉ t →
      1 ≤ w.temperature.length → w.temperature.length ≤ t.length →
      (weather_parse data w).2.temperature = t.take (w.temperature.length - 1) ++ [0] ∧
      (weather_parse data w).2.temperature.length = w.temperature.length) := by
  have s1 : strstr data textMarker = some pre1.length := by
    rw [hd1] at hf1 ⊢; exact strstr_first pre1 textMarker _ hf1
  have p1 : data.drop (pre1.length + textMarker.length) = v ++ 34 :: rest1 := by
    rw [hd1, ← List.length_append, List.drop_left]
  have c1 := strchr_first v rest1 34 hv
  constructor
  · intro hN hlen
    have hw : (weather_parse data w).2.weather = v.take (w.weather.length - 1) ++ [0] := by
      have g1 : v.length ≥ w.weather.length := hlen
      cases h3 : strstr data temperatureMarker with
      | none => simp [weather_parse, s1, p1, c1, g1, h3, copy_field_truncated _ _ _ hN hlen]
      | some j =>
        cases h4 : strchr (data.drop (j + temperatureMarker.length)) 34 with
        | none =>
          simp [weather_parse, s1, p1, c1, g1, h3, h4, copy_field_truncated _ _ _ hN hlen]
        | some q2 =>
          simp [weather_parse, s1, p1, c1, g1, h3, h4, copy_field_truncated _ _ _ hN hlen]
    refine ⟨hw, ?_⟩
    rw [hw, List.length_append, List.length_take]
    simp; omega
  · intro pre2 t rest2 hd2 hf2 ht hN hlen
    have s2 : strstr data temperatureMarker = some pre2.length := by
      rw [hd2] at hf2 ⊢; exact strstr_first pre2 temperatureMarker _ hf2
    have p2 : data.drop (pre2.length + temperatureMarker.length) = t ++ 34 :: rest2 := by
      rw [hd2, ← List.length_append, List.drop_left]
    have c2 := strchr_first t rest2 34 ht
    have g2 : t.length ≥ w.temperature.length := hlen
    have hw : (weather_parse data w).2.temperature =
        t.take (w.temperature.length - 1) ++ [0] := by
      simp [weather_parse, s1, p1, c1, s2, p2, c2, g2, copy_field_truncated _ _ _ hN hlen]
    refine ⟨hw, ?_⟩
    rw [hw, List.length_append, List.length_take]
    simp; omega

/-- Input of the truncation example: `"text":"Overcast","temperature":"36"`. -/
theorem overcast_shape :
    EspAt.bytes "\"text\":\"Overcast\",\"temperature\":\"36\"" =
      [] ++ textMarker ++ (EspAt.bytes "Overcast" ++ 34 :: EspAt.bytes ",\"temperature\":\"36\"") ∧
    EspAt.bytes "\"text\":\"Overcast\",\"temperature\":\"36\"" =
      EspAt.bytes "\"text\":\"Overcast\"," ++ temperatureMarker ++ (EspAt.bytes "36" ++ 34 :: []) := by
  decide

theorem weather_parse_truncates_witness :
    (weather_parse (EspAt.bytes "\"text\":\"Overcast\",\"temperature\":\"36\"")
      { weather := [88, 88, 88, 88], temperature := [88, 88] }).2.weather =
      EspAt.bytes "Ove" ++ [0] ∧
    (weather_parse (EspAt.bytes "\"text\":\"Overcast\",\"temperature\":\"36\"")
      { weather := [88, 88, 88, 88], temperature := [88, 88] }).2.temperature =
      EspAt.bytes "3" ++ [0] :=
  ⟨((weather_parse_truncates { weather := [88, 88, 88, 88], temperature := [88, 88] }
      [] (EspAt.bytes "Overcast") (EspAt.bytes ",\"temperature\":\"36\"")
      (EspAt.bytes "\"text\":\"Overcast\",\"temperature\":\"36\"")
      overcast_shape.1 (by decide) (by decide)).1 (by decide) (by decide)).1,
   ((weather_parse_truncates { weather := [88, 88, 88, 88], temperature := [88, 88] }
      [] (EspAt.bytes "Overcast") (EspAt.bytes ",\"temperature\":\"36\"")
      (EspAt.bytes "\"text\":\"Overcast\",\"temperature\":\"36\"")
      overcast_shape.1 (by decide) (by decide)).2
      (EspAt.bytes "\"text\":\"Overcast\",") (EspAt.bytes "36") []
      overcast_shape.2 (by decide) (by decide) (by decide) (by decide)).1⟩

/-- C12 (amended): if `weather_parse` returns false then
`weather->temperature` holds its content from before the call, and when the
text field was not found (no `"text":"` marker, or no double quote behind its
first occurrence) the whole output is untouched. -/
theorem weather_parse_failure_frame (data : List Nat) (w : weather_t)
    (h : (weather_parse data w).1 = false) :
    (weather_parse data w).2.temperature = w.temperature ∧
    (¬ field_found data textMarker → (weather_parse data w).2 = w) := by
  rw [field_found_iff]
  cases h1 : strstr data textMarker with
  | none => simp [weather_parse, h1]
  | some i =>
    cases h2 : strchr (data.drop (i + textMarker.length)) 34 with
    | none => simp [weather_parse, h1, h2]
    | some q =>
      cases h3 : strstr data temperatureMarker with
      | none => simp [weather_parse, h1, h2, h3]
      | some j =>
        cases h4 : strchr (data.drop (j + temperatureMarker.length)) 34 with
        | none => simp [weather_parse, h1, h2, h3, h4]
        | some q2 => simp [weather_parse, h1, h2, h3, h4] at h

theorem weather_parse_failure_frame_witness :
    (weather_parse (EspAt.bytes "\"temperature\":\"36\"")
      { weather := [88, 88, 88, 88], temperature := [88, 88, 88] }).1 = false ∧
    (weather_parse (EspAt.bytes "\"temperature\":\"36\"")
      { weather := [88, 88, 88, 88], temperature := [88, 88, 88] }).2.temperature =
      [88, 88, 88] :=
  ⟨by decide,
    (weather_parse_failure_frame (EspAt.bytes "\"temperature\":\"36\"")
      { weather := [88, 88, 88, 88], temperature := [88, 88, 88] } (by decide)).1⟩

/-- C12 (counterexample): on `"text":"Cloudy"` with no temperature field
`weather_parse` returns false, yet `weather->weather` no longer holds its
content from before the call: it holds `Cloudy` and a NUL. -/
theorem weather_parse_failure_counterexample :
    (weather_parse (EspAt.bytes "\"text\":\"Cloudy\"")
      { weather := [88, 88, 88, 88, 88, 88, 88, 88], temperature := [88, 88, 88] }).1 = false ∧
    (weather_parse (EspAt.bytes "\"text\":\"Cloudy\"")
      { weather := [88, 88, 88, 88, 88, 88, 88, 88], temperature := [88, 88, 88] }).2.weather ≠
      [88, 88, 88, 88, 88, 88, 88, 88] ∧
    (weather_parse (EspAt.bytes "\"text\":\"Cloudy\"")
      { weather := [88, 88, 88, 88, 88, 88, 88, 88], temperature := [88, 88, 88] }).2.weather =
      EspAt.bytes "Cloudy" ++ [0, 88] := by
  decide

end Weather



